import Mathlib

/-!
Verification of the `webscrapy` contact-extraction tool.

This file gives a shallow embedding of the parts of the repository that the
claims concern:

* `PatternMatcher` (src/src/classes/PatternMatcher.ts): regex-based
  recognition/validation/formatting of Brazilian phones, emails and names;
* `DOMScanner` (src/unnamed/part_006): the field-association heuristic
  `matchContactData` and the page-level `removeDuplicateContacts` merge;
* `DataManager` (src/unnamed/part_007): the contact store (validation,
  duplicate rule, CRUD, session restore, age-based cleanup).

JavaScript strings are modelled as Lean `String`/`List Char`; the JS regexes
that drive the code are modelled by a small backtracking engine (`Reg`,
`matchR`, `matchAll`) that mirrors the semantics of `RegExp.prototype.test`
and `String.prototype.matchAll` for the constructs the source uses (character
classes, greedy counted repetition, optional groups, word boundaries; the
engine tries longer repetitions first and scans match start positions left to
right, exactly as a backtracking JS engine does).  Dates are modelled as
millisecond timestamps (`Int`); `localStorage` contents are passed explicitly
as parameters to the session operations.
-/

namespace WebScrapy

/-! ## JavaScript character primitives -/

/-- JS `\w` character class: `[A-Za-z0-9_]`.  (`Char.isAlpha`/`Char.isDigit`
are the ASCII ranges, matching JS.) -/
def isWordChar (c : Char) : Bool := c.isAlpha || c.isDigit || c == '_'

/-- JS `\s` whitespace, restricted to the ASCII whitespace characters this
program's inputs can contain. -/
def isJsSpace (c : Char) : Bool :=
  c == ' ' || c == '\t' || c == '\n' || c == '\r' || c == '\x0b' || c == '\x0c'

/-- JS `String.prototype.toLowerCase`, for the character ranges this program
manipulates: ASCII `A`–`Z` plus the accented Portuguese uppercase letters
appearing in the source's character classes (`ÁÀÂÃÉÊÍÓÔÕÚÇ`).  All other
characters are fixed points, as in JS for the data this tool handles. -/
def jsToLower (c : Char) : Char :=
  if c = 'A' then 'a' else if c = 'B' then 'b' else if c = 'C' then 'c'
  else if c = 'D' then 'd' else if c = 'E' then 'e' else if c = 'F' then 'f'
  else if c = 'G' then 'g' else if c = 'H' then 'h' else if c = 'I' then 'i'
  else if c = 'J' then 'j' else if c = 'K' then 'k' else if c = 'L' then 'l'
  else if c = 'M' then 'm' else if c = 'N' then 'n' else if c = 'O' then 'o'
  else if c = 'P' then 'p' else if c = 'Q' then 'q' else if c = 'R' then 'r'
  else if c = 'S' then 's' else if c = 'T' then 't' else if c = 'U' then 'u'
  else if c = 'V' then 'v' else if c = 'W' then 'w' else if c = 'X' then 'x'
  else if c = 'Y' then 'y' else if c = 'Z' then 'z'
  else if c = 'Á' then 'á' else if c = 'À' then 'à' else if c = 'Â' then 'â'
  else if c = 'Ã' then 'ã' else if c = 'É' then 'é' else if c = 'Ê' then 'ê'
  else if c = 'Í' then 'í' else if c = 'Ó' then 'ó' else if c = 'Ô' then 'ô'
  else if c = 'Õ' then 'õ' else if c = 'Ú' then 'ú' else if c = 'Ç' then 'ç' else c

/-- `s.toLowerCase()` on strings. -/
def jsToLowerStr (s : String) : String := ⟨s.data.map jsToLower⟩

/-- `s.trim()`: strip leading and trailing whitespace. -/
def jsTrim (s : String) : String :=
  ⟨((s.data.dropWhile isJsSpace).reverse.dropWhile isJsSpace).reverse⟩

/-! ## A backtracking regex engine

`Reg` covers exactly the constructs the source's regexes use.  `rep p min max?`
is greedy counted repetition of a character class (`max? = none` means
unbounded): it models `p*`, `p+`, `p?`, `p{n}`, `p{n,}` and `p{n,m}`.
`opt` is a greedy optional group `(?:...)?`.  `bound` is `\b`.
Alternation between whole patterns does not occur inside any source regex. -/

inductive Reg where
  | cls (p : Char → Bool)
  | seq (a b : Reg)
  | opt (a : Reg)
  | rep (p : Char → Bool) (min : Nat) (max? : Option Nat)
  | bound

/-- Is a word character (JS `\b` treats positions outside the string as
non-word). -/
def isWordOpt : Option Char → Bool
  | none => false
  | some c => isWordChar c

def maxAllows : Option Nat → Bool
  | none => true
  | some m => 0 < m

def maxDec : Option Nat → Option Nat
  | none => none
  | some m => some (m - 1)

/-- Greedy repetition of a character class with backtracking: try consuming one
more character first (JS greedy semantics), otherwise stop if the minimum count
has been reached.  The continuation `k` receives the character preceding the
current position (for `\b`) and the remaining input. -/
def matchRep (p : Char → Bool)
    (k : Option Char → List Char → Option (Option Char × List Char)) :
    Nat → Option Nat → Option Char → List Char → Option (Option Char × List Char)
  | min, _, prev, [] => if min == 0 then k prev [] else none
  | min, max?, prev, c :: rest =>
    if p c && maxAllows max? then
      (matchRep p k (min - 1) (maxDec max?) (some c) rest) <|>
        (if min == 0 then k prev (c :: rest) else none)
    else if min == 0 then k prev (c :: rest) else none

/-- Backtracking matcher in continuation style: `matchR r prev rest k` attempts
to match `r` at the position whose preceding character is `prev` and whose
remaining input is `rest`; on success the continuation gets the new position.
First-success order reproduces the JS engine's backtracking order. -/
def matchR : Reg → Option Char → List Char →
    (Option Char → List Char → Option (Option Char × List Char)) →
    Option (Option Char × List Char)
  | .cls _, _, [], _ => none
  | .cls p, _, c :: rest, k => if p c then k (some c) rest else none
  | .seq a b, prev, rest, k => matchR a prev rest fun p' r' => matchR b p' r' k
  | .opt a, prev, rest, k => (matchR a prev rest k) <|> k prev rest
  | .rep p min max?, prev, rest, k => matchRep p k min max? prev rest
  | .bound, prev, rest, k =>
    if isWordOpt prev != isWordOpt rest.head? then k prev rest else none

/-- Attempt a match exactly at the current position. -/
def tryMatch (r : Reg) (prev : Option Char) (rest : List Char) :
    Option (Option Char × List Char) :=
  matchR r prev rest fun p' r' => some (p', r')

/-- `String.prototype.matchAll` (equivalently repeated `exec` with the `g`
flag): scan start positions left to right, emit each match, resume at the
match end (advancing one position after an empty match).  Returns the list of
matched substrings (`match[0]` of each match). -/
def matchAllGo (r : Reg) : Nat → Option Char → List Char → List (List Char)
  | 0, _, _ => []
  | fuel + 1, prev, rest =>
    match tryMatch r prev rest with
    | some (p', rem) =>
      let m := rest.take (rest.length - rem.length)
      if rem.length < rest.length then
        m :: matchAllGo r fuel p' rem
      else
        match rest with
        | [] => [m]
        | c :: rest' => m :: matchAllGo r fuel (some c) rest'
    | none =>
      match rest with
      | [] => []
      | c :: rest' => matchAllGo r fuel (some c) rest'

def matchAll (r : Reg) (s : List Char) : List (List Char) :=
  matchAllGo r (s.length + 1) none s

/-- `RegExp.prototype.test` for a pattern anchored as `^...$`: a single match
attempt at position 0 that must consume the whole string (backtracking
explores shorter repetitions via the continuation). -/
def regexFullMatch (r : Reg) (s : List Char) : Bool :=
  (matchR r none s fun p' r' => if r'.isEmpty then some (p', r') else none).isSome

/-! ## PatternMatcher (src/src/classes/PatternMatcher.ts)

Character classes appearing in its regexes. -/

def isDigitC (c : Char) : Bool := c.isDigit

/-- `[A-Za-z]`. -/
def isAsciiLetter (c : Char) : Bool := c.isAlpha

/-- `[1-9]`. -/
def is19 (c : Char) : Bool := '1' ≤ c && c ≤ '9'

/-- `[A-Za-z0-9._%+-]` (email local part). -/
def isLocalChar (c : Char) : Bool :=
  c.isAlpha || c.isDigit || c == '.' || c == '_' || c == '%' || c == '+' || c == '-'

/-- `[A-Za-z0-9.-]` (email domain). -/
def isDomainChar (c : Char) : Bool :=
  c.isAlpha || c.isDigit || c == '.' || c == '-'

/-- `PHONE_PATTERNS.withParentheses`:
`\(([1-9]{2})\)\s*([9]?[0-9]{4})-?([0-9]{4})`. -/
def phonePar : Reg :=
  .seq (.cls (· == '(')) (.seq (.rep is19 2 (some 2)) (.seq (.cls (· == ')'))
    (.seq (.rep isJsSpace 0 none) (.seq (.rep (· == '9') 0 (some 1))
      (.seq (.rep isDigitC 4 (some 4)) (.seq (.rep (· == '-') 0 (some 1))
        (.rep isDigitC 4 (some 4))))))))

/-- `PHONE_PATTERNS.withSpace`: `([1-9]{2})\s+([9]?[0-9]{4})-?([0-9]{4})`. -/
def phoneSpace : Reg :=
  .seq (.rep is19 2 (some 2)) (.seq (.rep isJsSpace 1 none)
    (.seq (.rep (· == '9') 0 (some 1)) (.seq (.rep isDigitC 4 (some 4))
      (.seq (.rep (· == '-') 0 (some 1)) (.rep isDigitC 4 (some 4))))))

/-- `PHONE_PATTERNS.international`:
`\+55\s*([1-9]{2})\s*([9]?[0-9]{4})-?([0-9]{4})`. -/
def phoneIntl : Reg :=
  .seq (.cls (· == '+')) (.seq (.cls (· == '5')) (.seq (.cls (· == '5'))
    (.seq (.rep isJsSpace 0 none) (.seq (.rep is19 2 (some 2))
      (.seq (.rep isJsSpace 0 none) (.seq (.rep (· == '9') 0 (some 1))
        (.seq (.rep isDigitC 4 (some 4)) (.seq (.rep (· == '-') 0 (some 1))
          (.rep isDigitC 4 (some 4))))))))))

/-- `PHONE_PATTERNS.general`:
`(?:\+55\s*)?(?:\(?([1-9]{2})\)?\s*)?([9]?[0-9]{4})-?([0-9]{4})`. -/
def phoneGeneral : Reg :=
  .seq (.opt (.seq (.cls (· == '+')) (.seq (.cls (· == '5')) (.seq (.cls (· == '5'))
      (.rep isJsSpace 0 none)))))
    (.seq (.opt (.seq (.rep (· == '(') 0 (some 1)) (.seq (.rep is19 2 (some 2))
      (.seq (.rep (· == ')') 0 (some 1)) (.rep isJsSpace 0 none)))))
      (.seq (.rep (· == '9') 0 (some 1)) (.seq (.rep isDigitC 4 (some 4))
        (.seq (.rep (· == '-') 0 (some 1)) (.rep isDigitC 4 (some 4))))))

/-- The email shape `[A-Za-z0-9._%+-]+@[A-Za-z0-9.-]+\.[A-Za-z]{2,}`, shared by
`EMAIL_PATTERN` (between `\b`s) and the anchored test inside `validateEmail`. -/
def emailCoreReg : Reg :=
  .seq (.rep isLocalChar 1 none) (.seq (.cls (· == '@'))
    (.seq (.rep isDomainChar 1 none) (.seq (.cls (· == '.'))
      (.rep isAsciiLetter 2 none))))

/-- `EMAIL_PATTERN`: `\b[A-Za-z0-9._%+-]+@[A-Za-z0-9.-]+\.[A-Za-z]{2,}\b`. -/
def emailReg : Reg := .seq .bound (.seq emailCoreReg .bound)

/-- `text.replace(/\s+/g, ' ')`: collapse each whitespace run to one space. -/
def collapseWsGo : Bool → List Char → List Char
  | _, [] => []
  | prevSpace, c :: rest =>
    if isJsSpace c then
      if prevSpace then collapseWsGo true rest else ' ' :: collapseWsGo true rest
    else c :: collapseWsGo false rest

/-- `text.replace(/\s+/g, ' ').trim()` (the `cleanText` of `extractPhones`). -/
def cleanText (s : String) : String := jsTrim ⟨collapseWsGo false s.data⟩

/-- `phone.replace(/\D/g, '')`. -/
def digitsOf (s : String) : List Char := s.data.filter Char.isDigit

/-- `parseInt` of a two-digit-character string. -/
def parse2 (a b : Char) : Nat := (a.toNat - 48) * 10 + (b.toNat - 48)

/-- `PatternMatcher.validatePhone`. -/
def validatePhone (phone : String) : Bool :=
  let digits := digitsOf phone
  if digits.length < 10 || digits.length > 11 then false
  else match digits with
  | a :: b :: c :: _ =>
    let areaCode := parse2 a b
    if areaCode < 11 || areaCode > 99 then false
    else if digits.length == 11 then c == '9'
    else if digits.length == 10 then c != '9' && c != '0' && c != '1'
    else false
  | _ => false

/-- The `+55` country-code stripping step of `formatPhone` (remove a leading
`55` when 13 or 12 digits long). -/
def stripCC (l : List Char) : List Char :=
  if l.length == 13 && l.take 2 == ['5', '5'] then l.drop 2
  else if l.length == 12 && l.take 2 == ['5', '5'] then l.drop 2
  else l

/-- The validation/formatting step of `formatPhone` on the cleaned digits
(`substring(0,2)` is the area code, `charAt(2)` the mobile/landline marker;
mobile output `(AA) NNNNN-NNNN`, landline `(AA) NNNN-NNNN`). -/
def formatDigits (digits : List Char) : Option String :=
  if digits.length < 10 || digits.length > 11 then none
  else match digits with
  | a :: b :: c :: rest =>
    let areaCode := parse2 a b
    if areaCode < 11 || areaCode > 99 then none
    else if digits.length == 11 then
      if c != '9' then none
      else some ⟨'(' :: a :: b :: ')' :: ' ' ::
        ((c :: rest).take 5 ++ '-' :: (c :: rest).drop 5)⟩
    else if digits.length == 10 then
      if c == '9' || c == '0' || c == '1' then none
      else some ⟨'(' :: a :: b :: ')' :: ' ' ::
        ((c :: rest).take 4 ++ '-' :: (c :: rest).drop 4)⟩
    else none
  | _ => none

/-- `PatternMatcher.formatPhone`: strip non-digits, strip a `55` country code,
validate and format. -/
def formatPhone (phone : String) : Option String :=
  formatDigits (stripCC (digitsOf phone))

/-- One step of the `extractPhones` accumulation: format the raw match, keep it
if it formats, validates and is not already present. -/
def pushPhone (acc : List String) (m : List Char) : List String :=
  match formatPhone ⟨m⟩ with
  | some phone =>
    if validatePhone phone && !acc.contains phone then acc ++ [phone] else acc
  | none => acc

/-- `PatternMatcher.extractPhones`: all four patterns are run in declaration
order over the cleaned text, sharing one result list. -/
def extractPhones (text : String) : List String :=
  if text == "" then []
  else
    let ct := (cleanText text).data
    [phonePar, phoneSpace, phoneIntl, phoneGeneral].foldl
      (fun acc pat => (matchAll pat ct).foldl pushPhone acc) []

/-- JS `String.prototype.split` with a single-character separator. -/
def jsSplitChar (sep : Char) : List Char → List (List Char)
  | [] => [[]]
  | c :: rest =>
    if c == sep then [] :: jsSplitChar sep rest
    else match jsSplitChar sep rest with
      | [] => [[c]]
      | h :: t => (c :: h) :: t

/-- `s.includes('..')`: some adjacent pair of characters are both dots. -/
def hasConsecDots : List Char → Bool
  | [] => false
  | [_] => false
  | c :: d :: rest => (c == '.' && d == '.') || hasConsecDots (d :: rest)

/-- `PatternMatcher.validateEmail`: the anchored regex
`^[A-Za-z0-9._%+-]+@[A-Za-z0-9.-]+\.[A-Za-z]{2,}$` followed by the structural
local-part/domain rules, with the source's early returns folded into one
conditional chain. -/
def validateEmail (email : String) : Bool :=
  if !(regexFullMatch emailCoreReg email.data) then false
  else
    let parts := jsSplitChar '@' email.data
    if parts.length != 2 then false
    else
      let localPart := parts.headD []
      let domain := (parts.drop 1).headD []
      if localPart.length == 0 || localPart.length > 64 then false
      else if localPart.head? == some '.' || localPart.getLast? == some '.' then false
      else if hasConsecDots localPart then false
      else if domain.length == 0 || domain.length > 253 then false
      else if domain.head? == some '.' || domain.getLast? == some '.' ||
              domain.head? == some '-' || domain.getLast? == some '-' then false
      else if !(domain.contains '.') then false
      else
        let domainParts := jsSplitChar '.' domain
        if !(domainParts.all fun part =>
            part.length != 0 && part.length ≤ 63 &&
            part.head? != some '-' && part.getLast? != some '-') then false
        else 2 ≤ (domainParts.getLastD []).length

/-- `PatternMatcher.extractEmails`: scan with `EMAIL_PATTERN`, lowercase each
match, keep it if it re-validates and is new. -/
def extractEmails (text : String) : List String :=
  if text == "" then []
  else
    (matchAll emailReg text.data).foldl
      (fun acc m =>
        let em := jsToLowerStr ⟨m⟩
        if validateEmail em && !acc.contains em then acc ++ [em] else acc) []

/-- `a-z` (ASCII) — head test of `Char.isLower`. -/
def isAccentedLower (c : Char) : Bool :=
  c == 'á' || c == 'à' || c == 'â' || c == 'ã' || c == 'é' || c == 'ê' ||
  c == 'í' || c == 'ó' || c == 'ô' || c == 'õ' || c == 'ú' || c == 'ç'

def isAccentedUpper (c : Char) : Bool :=
  c == 'Á' || c == 'À' || c == 'Â' || c == 'Ã' || c == 'É' || c == 'Ê' ||
  c == 'Í' || c == 'Ó' || c == 'Ô' || c == 'Õ' || c == 'Ú' || c == 'Ç'

/-- `[A-ZÁÀÂÃÉÊÍÓÔÕÚÇ]`. -/
def isPtUpper (c : Char) : Bool := c.isUpper || isAccentedUpper c

/-- `[a-záàâãéêíóôõúç]`. -/
def isPtLower (c : Char) : Bool := c.isLower || isAccentedLower c

/-- Characters kept by `word.replace(/[^\w\sáàâãéêíóôõúçÁÀÂÃÉÊÍÓÔÕÚÇ]/g, '')`. -/
def isKeptNameChar (c : Char) : Bool :=
  isWordChar c || isJsSpace c || isAccentedLower c || isAccentedUpper c

def cleanWord (w : String) : String := ⟨w.data.filter isKeptNameChar⟩

/-- `NAME_PARTICLES`. -/
def nameParticles : List String :=
  ["da", "das", "de", "do", "dos", "del", "della", "van", "von", "le", "la", "el"]

/-- The rejected non-name vocabulary of `isNameWord`. -/
def nonNameWords : List String :=
  ["contato", "contatos", "email", "telefone", "phone", "endereço", "address",
   "rua", "street", "cidade", "city", "gerente", "diretor", "responsável",
   "manager", "director", "contact", "info", "information", "empresa", "company"]

/-- `^[A-ZÁÀÂÃÉÊÍÓÔÕÚÇ][a-záàâãéêíóôõúç]+$`. -/
def matchesNameShape (w : List Char) : Bool :=
  match w with
  | c :: rest => isPtUpper c && !rest.isEmpty && rest.all isPtLower
  | [] => false

/-- `PatternMatcher.isNameWord`. -/
def isNameWord (word : String) : Bool :=
  if word == "" || word.length < 2 then false
  else
    let lowerWord := jsToLowerStr word
    if nameParticles.contains lowerWord then true
    else if !(match word.data with | c :: _ => isPtUpper c | [] => false) then false
    else if nonNameWords.contains lowerWord then false
    else matchesNameShape word.data && 2 ≤ word.length

/- JS `split(/\s+/)`: pieces between maximal whitespace runs (with empty
pieces at the edges when the string starts/ends with whitespace).
`splitWsGo` accumulates the current piece in reverse; `splitWsSkip` runs
through a whitespace run. -/
mutual

def splitWsGo (cur : List Char) : List Char → List (List Char)
  | [] => [cur.reverse]
  | c :: rest =>
    if isJsSpace c then cur.reverse :: splitWsSkip rest
    else splitWsGo (c :: cur) rest

def splitWsSkip : List Char → List (List Char)
  | [] => [[]]
  | c :: rest => if isJsSpace c then splitWsSkip rest else splitWsGo [c] rest

end

def splitWs (s : List Char) : List (List Char) := splitWsGo [] s

/-- The per-word test of `validateName` (particles are skipped with
`continue`; others need length ≥ 2, length ≥ 3, an uppercase head, and the
full capitalized shape). -/
def validNameWord (w : List Char) : Bool :=
  if nameParticles.contains ⟨w.map jsToLower⟩ then true
  else if w.length < 2 then false
  else if w.length < 3 then false
  else if !(match w with | c :: _ => isPtUpper c | [] => false) then false
  else matchesNameShape w

/-- The word alternations of `validateName`'s five `invalidPatterns`
(`/\b(email|telefone|...)\b/` etc.). -/
def stopWordGroups : List (List String) :=
  [["email", "telefone", "phone", "contact", "contato", "endereço", "address",
    "rua", "street", "cidade", "city"],
   ["segunda", "terça", "quarta", "quinta", "sexta", "sábado", "domingo"],
   ["janeiro", "fevereiro", "março", "abril", "maio", "junho", "julho",
    "agosto", "setembro", "outubro", "novembro", "dezembro"],
   ["monday", "tuesday", "wednesday", "thursday", "friday", "saturday", "sunday"],
   ["january", "february", "march", "april", "may", "june", "july", "august",
    "september", "october", "november", "december"]]

/-- Does `\b w \b` match at the very start of `s` (whose preceding character
is `prev`)? -/
def wordBAt (w : List Char) (prev : Option Char) (s : List Char) : Bool :=
  (isWordOpt prev != isWordOpt w.head?) && w.isPrefixOf s &&
    (isWordOpt w.getLast? != isWordOpt (s.drop w.length).head?)

/-- `/\b(w)\b/.test(s)` for a literal word `w`: scan every position. -/
def containsWordBGo (w : List Char) : Option Char → List Char → Bool
  | _, [] => false
  | prev, c :: rest => wordBAt w prev (c :: rest) || containsWordBGo w (some c) rest

def containsWordB (w : List Char) (s : List Char) : Bool := containsWordBGo w none s

/-- `PatternMatcher.validateName`. -/
def validateName (name : String) : Bool :=
  let trimmedName := jsTrim name
  if trimmedName.length < 2 then false
  else
    let words := splitWs trimmedName.data
    if words.length < 2 then false
    else if !(words.all validNameWord) then false
    else
      let lowerName := (jsToLowerStr trimmedName).data
      !(stopWordGroups.any fun g => g.any fun w => containsWordB w.data lowerName)

/-- `A-Z` → `a-z` and the accented lowercase Portuguese letters back to their
uppercase forms (`charAt(0).toUpperCase()` for the characters this program
handles). -/
def jsToUpper (c : Char) : Char :=
  if c = 'a' then 'A' else if c = 'b' then 'B' else if c = 'c' then 'C'
  else if c = 'd' then 'D' else if c = 'e' then 'E' else if c = 'f' then 'F'
  else if c = 'g' then 'G' else if c = 'h' then 'H' else if c = 'i' then 'I'
  else if c = 'j' then 'J' else if c = 'k' then 'K' else if c = 'l' then 'L'
  else if c = 'm' then 'M' else if c = 'n' then 'N' else if c = 'o' then 'O'
  else if c = 'p' then 'P' else if c = 'q' then 'Q' else if c = 'r' then 'R'
  else if c = 's' then 'S' else if c = 't' then 'T' else if c = 'u' then 'U'
  else if c = 'v' then 'V' else if c = 'w' then 'W' else if c = 'x' then 'X'
  else if c = 'y' then 'Y' else if c = 'z' then 'Z'
  else if c = 'á' then 'Á' else if c = 'à' then 'À' else if c = 'â' then 'Â'
  else if c = 'ã' then 'Ã' else if c = 'é' then 'É' else if c = 'ê' then 'Ê'
  else if c = 'í' then 'Í' else if c = 'ó' then 'Ó' else if c = 'ô' then 'Ô'
  else if c = 'õ' then 'Õ' else if c = 'ú' then 'Ú' else if c = 'ç' then 'Ç' else c

/-- `PatternMatcher.formatName`. -/
def formatName (name : String) : Option String :=
  let trimmedName : List Char := collapseWsGo false (jsTrim name).data
  if trimmedName.isEmpty then none
  else
    let words := jsSplitChar ' ' trimmedName
    let formattedWords := words.mapIdx fun i w =>
      let lowerWord := w.map jsToLower
      if 0 < i && nameParticles.contains ⟨lowerWord⟩ then lowerWord
      else match w with
        | [] => []
        | c :: rest => jsToUpper c :: rest.map jsToLower
    some ⟨List.intercalate [' '] formattedWords⟩

/-- The inner body of the `extractNames` word scan: at a qualifying (cleaned)
word, greedily absorb the following run of qualifying words, emit the joined
candidate when it has at least two words, and resume after the run. -/
def extractNamesGo : Nat → List String → List String → List String
  | 0, _, names => names
  | _ + 1, [], names => names
  | fuel + 1, w :: rest, names =>
    let cw := cleanWord w
    if isNameWord cw then
      let more := (rest.takeWhile fun x => isNameWord (cleanWord x)).map cleanWord
      let rest' := rest.drop more.length
      let names' :=
        if 2 ≤ more.length + 1 then
          match formatName (String.intercalate " " (cw :: more)) with
          | some f =>
            if validateName f && !names.contains f then names ++ [f] else names
          | none => names
        else names
      extractNamesGo fuel rest' names'
    else extractNamesGo fuel rest names

/-- `PatternMatcher.extractNames`. -/
def extractNames (text : String) : List String :=
  if text == "" then []
  else
    let ws := (splitWs text.data).map fun l => String.mk l
    extractNamesGo (ws.length + 1) ws []

/-! ## DataManager (src/unnamed/part_007)

`ContactData` (src/src/types/interfaces.ts); `timestamp` is an optional
millisecond instant (absent models a record never stamped). -/

structure ContactData where
  name : String
  phone : String
  email : String
  source : String
  timestamp : Option Int
deriving DecidableEq, Repr, Inhabited

/-- The in-memory state of a `DataManager` (its `contacts` array, by value;
reference-level aliasing is modelled separately for the accessor claims). -/
structure DMState where
  contacts : List ContactData
deriving DecidableEq, Repr, Inhabited

/-- `DataManager.isValidPhone` pattern 1: `^\(\d{2}\)\s?\d{4,5}-?\d{4}$`. -/
def dmPhone1 : Reg :=
  .seq (.cls (· == '(')) (.seq (.rep isDigitC 2 (some 2)) (.seq (.cls (· == ')'))
    (.seq (.rep isJsSpace 0 (some 1)) (.seq (.rep isDigitC 4 (some 5))
      (.seq (.rep (· == '-') 0 (some 1)) (.rep isDigitC 4 (some 4)))))))

/-- Pattern 2: `^\d{2}\s\d{4,5}-?\d{4}$`. -/
def dmPhone2 : Reg :=
  .seq (.rep isDigitC 2 (some 2)) (.seq (.cls isJsSpace)
    (.seq (.rep isDigitC 4 (some 5)) (.seq (.rep (· == '-') 0 (some 1))
      (.rep isDigitC 4 (some 4)))))

/-- Pattern 3: `^\+55\s\d{2}\s\d{4,5}-?\d{4}$`. -/
def dmPhone3 : Reg :=
  .seq (.cls (· == '+')) (.seq (.cls (· == '5')) (.seq (.cls (· == '5'))
    (.seq (.cls isJsSpace) (.seq (.rep isDigitC 2 (some 2))
      (.seq (.cls isJsSpace) (.seq (.rep isDigitC 4 (some 5))
        (.seq (.rep (· == '-') 0 (some 1)) (.rep isDigitC 4 (some 4)))))))))

/-- Pattern 4: `^\d{10,11}$`. -/
def dmPhone4 : Reg := .rep isDigitC 10 (some 11)

/-- `DataManager.isValidPhone`: trim, reject empty, then try the four
anchored Brazilian format patterns. -/
def dmIsValidPhone (phone : String) : Bool :=
  let cleanPhone := jsTrim phone
  if cleanPhone == "" then false
  else [dmPhone1, dmPhone2, dmPhone3, dmPhone4].any fun p =>
    regexFullMatch p cleanPhone.data

/-- `[A-Z|a-z]` — the TLD class of `DataManager`'s email regex (it contains a
literal `|`, faithfully kept). -/
def isDmTldChar (c : Char) : Bool := c.isUpper || c == '|' || c.isLower

/-- `DataManager.isValidEmail`'s regex
`^[A-Za-z0-9._%+-]+@[A-Za-z0-9.-]+\.[A-Z|a-z]{2,}$`. -/
def dmEmailReg : Reg :=
  .seq (.rep isLocalChar 1 none) (.seq (.cls (· == '@'))
    (.seq (.rep isDomainChar 1 none) (.seq (.cls (· == '.'))
      (.rep isDmTldChar 2 none))))

def dmIsValidEmail (email : String) : Bool :=
  regexFullMatch dmEmailReg (jsTrim email).data

/-- `DataManager.normalizePhone`: `phone.replace(/[\s\-\(\)\+]/g, '')`. -/
def dmNormalizePhone (phone : String) : String :=
  ⟨phone.data.filter fun c =>
    !(isJsSpace c || c == '-' || c == '(' || c == ')' || c == '+')⟩

/-- `DataManager.validateContact`. -/
def validateContact (c : ContactData) : Bool :=
  if c.name == "" || jsTrim c.name == "" then false
  else
    let hasPhone := c.phone != "" && jsTrim c.phone != ""
    let hasEmail := c.email != "" && jsTrim c.email != ""
    if !hasPhone && !hasEmail then false
    else if hasEmail && !(dmIsValidEmail c.email) then false
    else if hasPhone && !(dmIsValidPhone c.phone) then false
    else true

/-- The per-record test inside `DataManager.isDuplicateInArray`: name matches
(case/whitespace-insensitively) and at least one of phone (normalized,
both non-empty) or email (lowercased/trimmed, both non-empty) matches. -/
def contactsMatch (existing c : ContactData) : Bool :=
  let nameMatch := jsTrim (jsToLowerStr existing.name) == jsTrim (jsToLowerStr c.name)
  let phoneMatch := existing.phone != "" && c.phone != "" &&
    jsTrim existing.phone != "" && jsTrim c.phone != "" &&
    dmNormalizePhone existing.phone == dmNormalizePhone c.phone
  let emailMatch := existing.email != "" && c.email != "" &&
    jsTrim existing.email != "" && jsTrim c.email != "" &&
    jsTrim (jsToLowerStr existing.email) == jsTrim (jsToLowerStr c.email)
  nameMatch && (phoneMatch || emailMatch)

def isDuplicateInArray (c : ContactData) (arr : List ContactData) : Bool :=
  arr.any fun existing => contactsMatch existing c

/-- `DataManager.addContact` (`now` models `new Date()`; storage writes are a
non-failing side channel and do not affect the result). -/
def addContact (st : DMState) (c : ContactData) (now : Int) : DMState × Bool :=
  if !(validateContact c) then (st, false)
  else if isDuplicateInArray c st.contacts then (st, false)
  else
    let c' := { c with timestamp := some (c.timestamp.getD now) }
    (⟨st.contacts ++ [c']⟩, true)

/-- `DataManager.removeContact` (negative indices, rejected by the same bounds
check, are not representable with `Nat`). -/
def removeContact (st : DMState) (i : Nat) : DMState × Bool :=
  if st.contacts.length ≤ i then (st, false)
  else (⟨st.contacts.eraseIdx i⟩, true)

/-- `DataManager.updateContact`: bounds check, re-validation, duplicate check
against the store minus slot `i`, then in-place replacement. -/
def updateContact (st : DMState) (i : Nat) (c : ContactData) : DMState × Bool :=
  if st.contacts.length ≤ i then (st, false)
  else if !(validateContact c) then (st, false)
  else if isDuplicateInArray c (st.contacts.eraseIdx i) then (st, false)
  else (⟨st.contacts.set i c⟩, true)

def getContactCount (st : DMState) : Nat := st.contacts.length

/-- `DataManager.restoreSession`.  `loaded` is `loadSession()?.contacts`
(`none` covers both a missing session and a session without a contacts
array); `replace` selects the `'replace'` strategy. -/
def restoreSession (st : DMState) (loaded : Option (List ContactData))
    (replace : Bool) : DMState × Bool :=
  match loaded with
  | none => (st, false)
  | some sc =>
    if replace then (⟨sc⟩, true)
    else
      (⟨sc.foldl (fun acc c => if isDuplicateInArray c acc then acc else acc ++ [c])
        st.contacts⟩, true)

/-- `DataManager.importSessionData`, with the JSON payload already parsed
(`none` models unparsable JSON or a missing/non-array `contacts`). -/
def importSessionData (st : DMState) (parsed : Option (List ContactData))
    (replace : Bool) : DMState × Bool :=
  match parsed with
  | none => (st, false)
  | some ic =>
    if replace then (⟨ic⟩, true)
    else
      (⟨ic.foldl (fun acc c => if isDuplicateInArray c acc then acc else acc ++ [c])
        st.contacts⟩, true)

def msPerMinute : Int := 60000
def msPerDay : Int := 86400000

/-- `DataManager.getSessionAge` (minutes, `Math.floor`), given the stored
session timestamp. -/
def getSessionAge (sessionTs : Option Int) (now : Int) : Option Int :=
  sessionTs.map fun ts => (now - ts).fdiv msPerMinute

/-- `DataManager.cleanupOldContacts`: drop every contact whose timestamp is
missing or not strictly newer than `now - maxAgeDays` days (calendar-day
arithmetic idealized to fixed 24-hour days). -/
def cleanupOldContacts (st : DMState) (maxAgeDays : Int) (now : Int) : DMState :=
  let cutoffDate := now - maxAgeDays * msPerDay
  ⟨st.contacts.filter fun c =>
    match c.timestamp with
    | some t => cutoffDate < t
    | none => false⟩

/-- `DataManager.cleanupOldSessions`: clear the session snapshot when its age
exceeds `maxAgeHours * 60` minutes, and additionally run `cleanupOldContacts`
with `maxAgeHours * 24` as the day count.  Returns the new store state and
whether the session was cleared. -/
def cleanupOldSessions (st : DMState) (sessionTs : Option Int)
    (maxAgeHours : Int) (now : Int) : DMState × Bool :=
  let cleared :=
    match getSessionAge sessionTs now with
    | some a => maxAgeHours * 60 < a
    | none => false
  (cleanupOldContacts st (maxAgeHours * 24) now, cleared)

/-! ## DOMScanner (src/unnamed/part_006) -/

/-- `DOMScanner.matchContactData`: strategy 1 zips equal-length field lists
positionally; strategy 2 pairs positionally up to the longest list, keeping a
record only with a name and a phone or email; strategy 3 emits orphan
records per email then per phone when strategy 2 produced nothing.
(`source` models `window.location.href`, `ts` the shared `new Date()`.) -/
def matchContactData (names phones emails : List String) (source : String)
    (ts : Int) : List ContactData :=
  if names.length == phones.length && phones.length == emails.length &&
      0 < names.length then
    (List.range names.length).map fun i =>
      ⟨names.getD i "", phones.getD i "", emails.getD i "", source, some ts⟩
  else
    let maxLength := max names.length (max phones.length emails.length)
    let contacts := (List.range maxLength).foldl (fun acc i =>
      let c : ContactData :=
        ⟨names.getD i "", phones.getD i "", emails.getD i "", source, some ts⟩
      if c.name != "" && (c.phone != "" || c.email != "") then acc ++ [c]
      else acc) []
    if contacts.isEmpty then
      (emails.map fun em => (⟨"", "", em, source, some ts⟩ : ContactData)) ++
        (phones.map fun ph => (⟨"", ph, "", source, some ts⟩ : ContactData))
    else contacts

/-- `DOMScanner.extractContactsFromText`. -/
def extractContactsFromText (text : String) (source : String) (ts : Int) :
    List ContactData :=
  let emails := extractEmails text
  let phones := extractPhones text
  let names := extractNames text
  if !emails.isEmpty || !phones.isEmpty || !names.isEmpty then
    matchContactData names phones emails source ts
  else []

/-- The `seen` key of `removeDuplicateContacts`:
`` `${contact.email.toLowerCase()}|${contact.phone}` ``. -/
def dedupKey (c : ContactData) : String := jsToLowerStr c.email ++ "|" ++ c.phone

/-- The partial-match test of `removeDuplicateContacts`: same non-empty email
(case-insensitive) or same non-empty phone (exact string). -/
def scannerMatches (c existing : ContactData) : Bool :=
  (c.email != "" && jsToLowerStr c.email == jsToLowerStr existing.email) ||
    (c.phone != "" && c.phone == existing.phone)

/-- The in-place merge of `removeDuplicateContacts`: fields missing in the
surviving record are inherited from the duplicate. -/
def mergeFill (existing c : ContactData) : ContactData :=
  let e1 :=
    if existing.name == "" && c.name != "" then { existing with name := c.name }
    else existing
  let e2 :=
    if e1.phone == "" && c.phone != "" then { e1 with phone := c.phone } else e1
  if e2.email == "" && c.email != "" then { e2 with email := c.email } else e2

/-- The loop of `removeDuplicateContacts`: skip exact key repeats, merge into
the first partially-matching survivor, otherwise keep the record. -/
def rdcGo : List ContactData → List String → List ContactData → List ContactData
  | [], _, unique => unique
  | c :: rest, seen, unique =>
    if seen.contains (dedupKey c) then rdcGo rest seen unique
    else match unique.findIdx? (fun ex => scannerMatches c ex) with
      | some j => rdcGo rest seen (unique.set j (mergeFill (unique.getD j default) c))
      | none => rdcGo rest (seen ++ [dedupKey c]) (unique ++ [c])

/-- `DOMScanner.removeDuplicateContacts`. -/
def removeDuplicateContacts (contacts : List ContactData) : List ContactData :=
  rdcGo contacts [] []

/-! ## Reference-level model of the store accessors

`getAllContacts` returns `[...this.contacts]` (a fresh array whose elements
are the stored record *objects*) and `getContact` returns
`{...this.contacts[index]}` (a fresh record object).  To state what external
mutation can reach, records live in a heap of objects addressed by `Nat`; the
store holds addresses; field assignment on an object is `writeRecord` at its
address. -/

structure RefState where
  heap : List ContactData
  contacts : List Nat
deriving DecidableEq, Repr

/-- The record list an observer reads through the store's references. -/
def viewContacts (s : RefState) : List ContactData :=
  s.contacts.map fun a => s.heap.getD a default

/-- Every stored reference points into the heap. -/
def RefState.wfRefs (s : RefState) : Prop := ∀ a ∈ s.contacts, a < s.heap.length

/-- `getAllContacts`: the returned array is a new list value, but its elements
are the stored addresses themselves (`[...this.contacts]` is a shallow copy). -/
def getAllContactsRefs (s : RefState) : List Nat := s.contacts

/-- `getContact`: bounds-checked; on success allocates a fresh object holding
a copy of the record and returns its address. -/
def getContactRef (s : RefState) (i : Nat) : RefState × Option Nat :=
  match s.contacts.get? i with
  | some addr =>
    ({ s with heap := s.heap ++ [s.heap.getD addr default] }, some s.heap.length)
  | none => (s, none)

/-- Mutation of the record object at address `a` (e.g. `rec.name = ...`). -/
def writeRecord (s : RefState) (a : Nat) (r : ContactData) : RefState :=
  { s with heap := s.heap.set a r }

/-! ## Theorems -/

theorem jsTrim_empty : jsTrim "" = "" := rfl

theorem jsTrim_ne_empty {s : String} (h : jsTrim s ≠ "") : s ≠ "" := by
  intro he; subst he; exact h jsTrim_empty

/-- C1: the claim asserts that an orphan record (empty name, valid phone) is
accepted by `addContact`; in fact `validateContact` rejects every record whose
name is empty, so `addContact` returns `false` and leaves the store empty. -/
theorem C1_counterexample :
    addContact ⟨[]⟩ ⟨"", "(11) 99999-9999", "", "", none⟩ 0 = (⟨[]⟩, false) := by
  decide

/-- C1 (amended): a record whose name is empty or whitespace-only is always
rejected by the store's `addContact`, with no mutation; orphan candidates
exist only at the extraction layer. -/
theorem C1_amended (st : DMState) (c : ContactData) (now : Int)
    (h : jsTrim c.name = "") : addContact st c now = (st, false) := by
  have hv : validateContact c = false := by
    unfold validateContact
    simp [h]
  unfold addContact
  simp [hv]

theorem C1_amended_witness :
    jsTrim "  " = "" ∧
      addContact ⟨[]⟩ ⟨"  ", "(11) 99999-9999", "", "", none⟩ 3 =
        (⟨[]⟩, false) :=
  ⟨by decide, C1_amended ⟨[]⟩ ⟨"  ", "(11) 99999-9999", "", "", none⟩ 3 (by decide)⟩

/-- C4: `updateContact i x` with a valid `x` that duplicates another record
(the `isDuplicateInArray` rule over the store minus slot `i`) returns `false`
and leaves the whole store — in particular slot `i` — unchanged. -/
theorem C4_update_collision_rejected (st : DMState) (i : Nat) (c : ContactData)
    (hi : i < st.contacts.length) (hv : validateContact c = true)
    (hd : isDuplicateInArray c (st.contacts.eraseIdx i) = true) :
    updateContact st i c = (st, false) := by
  unfold updateContact
  rw [if_neg (by omega)]
  simp [hv, hd]

theorem C4_update_collision_rejected_witness :
    0 < (⟨[⟨"Ana Silva", "11 99999-9999", "", "", none⟩,
          ⟨"Bia Costa", "(21) 2345-6789", "", "", none⟩]⟩ : DMState).contacts.length ∧
    validateContact ⟨"Bia Costa", "21 2345-6789", "", "", none⟩ = true ∧
    isDuplicateInArray ⟨"Bia Costa", "21 2345-6789", "", "", none⟩
      ((⟨[⟨"Ana Silva", "11 99999-9999", "", "", none⟩,
          ⟨"Bia Costa", "(21) 2345-6789", "", "", none⟩]⟩ : DMState).contacts.eraseIdx 0) = true ∧
    updateContact ⟨[⟨"Ana Silva", "11 99999-9999", "", "", none⟩,
        ⟨"Bia Costa", "(21) 2345-6789", "", "", none⟩]⟩ 0
        ⟨"Bia Costa", "21 2345-6789", "", "", none⟩ =
      (⟨[⟨"Ana Silva", "11 99999-9999", "", "", none⟩,
         ⟨"Bia Costa", "(21) 2345-6789", "", "", none⟩]⟩, false) :=
  ⟨by decide, by decide, by decide,
    C4_update_collision_rejected _ 0 _ (by decide) (by decide) (by decide)⟩

/-- C10: the claim's parenthetical says that with the default `h = 24`,
contacts older than 24 days are removed; in fact `cleanupOldSessions 24`
filters with `24 * 24 = 576` days, so a 30-day-old contact survives. -/
theorem C10_counterexample :
    (30 * msPerDay - 0) > 24 * msPerDay ∧
      (cleanupOldSessions ⟨[⟨"Ana Silva", "(11) 99999-9999", "", "", some 0⟩]⟩
          none 24 (30 * msPerDay)).1 =
        ⟨[⟨"Ana Silva", "(11) 99999-9999", "", "", some 0⟩]⟩ := by
  constructor
  · decide
  · decide

/-- C10 (amended): `cleanupOldSessions h` deletes from the live store exactly
the contacts whose timestamp is missing or at least `h * 24` days old (576
days for the default `h = 24`), keeping the strictly newer ones. -/
theorem C10_amended (st : DMState) (sessionTs : Option Int) (h now : Int)
    (c : ContactData) :
    c ∈ (cleanupOldSessions st sessionTs h now).1.contacts ↔
      c ∈ st.contacts ∧ ∃ t, c.timestamp = some t ∧ now - h * 24 * msPerDay < t := by
  unfold cleanupOldSessions cleanupOldContacts
  simp only [List.mem_filter]
  constructor
  · rintro ⟨hm, hp⟩
    refine ⟨hm, ?_⟩
    cases ht : c.timestamp with
    | none => rw [ht] at hp; simp at hp
    | some t =>
      rw [ht] at hp
      simp only [decide_eq_true_eq] at hp
      exact ⟨t, rfl, by linarith [hp]⟩
  · rintro ⟨hm, t, ht, hlt⟩
    refine ⟨hm, ?_⟩
    rw [ht]
    simp only [decide_eq_true_eq]
    linarith

theorem C10_amended_witness :
    (⟨"Ana Silva", "(11) 99999-9999", "", "", some 0⟩ : ContactData) ∈
        (cleanupOldSessions ⟨[⟨"Ana Silva", "(11) 99999-9999", "", "", some 0⟩]⟩
          none 24 (30 * msPerDay)).1.contacts :=
  (C10_amended ⟨[⟨"Ana Silva", "(11) 99999-9999", "", "", some 0⟩]⟩ none 24
      (30 * msPerDay) ⟨"Ana Silva", "(11) 99999-9999", "", "", some 0⟩).mpr
    ⟨by decide, 0, rfl, by decide⟩

/-- C5: the claim says mutating a record object obtained from
`getAllContacts()` cannot change the store; but `[...this.contacts]` is a
shallow copy, so writing through a returned record reference changes what the
store's own references denote. -/
theorem C5_counterexample :
    0 ∈ getAllContactsRefs ⟨[⟨"Ana Silva", "(11) 99999-9999", "", "", none⟩], [0]⟩ ∧
      viewContacts
          (writeRecord ⟨[⟨"Ana Silva", "(11) 99999-9999", "", "", none⟩], [0]⟩ 0
            ⟨"X", "", "", "", none⟩) ≠
        viewContacts ⟨[⟨"Ana Silva", "(11) 99999-9999", "", "", none⟩], [0]⟩ := by
  decide

/-- C5 (amended): `getContact` does return a defensive copy — the freshly
allocated record object is disjoint from the store, so mutating it never
changes the store's visible contents (and the allocation itself is
invisible); only the record objects inside `getAllContacts`'s shallow-copied
array alias the store. -/
theorem C5_amended (s s' : RefState) (i a : Nat) (r : ContactData)
    (hwf : s.wfRefs) (h : getContactRef s i = (s', some a)) :
    viewContacts s' = viewContacts s ∧
      viewContacts (writeRecord s' a r) = viewContacts s := by
  unfold getContactRef at h
  cases hg : s.contacts.get? i with
  | none => rw [hg] at h; simp at h
  | some addr =>
    rw [hg] at h
    simp only [Prod.mk.injEq, Option.some.injEq] at h
    obtain ⟨hs', ha⟩ := h
    have hview : ∀ heap2 : List ContactData,
        (∀ b ∈ s.contacts, heap2.getD b default = s.heap.getD b default) →
        viewContacts ⟨heap2, s.contacts⟩ = viewContacts s := by
      intro heap2 hagree
      unfold viewContacts
      exact List.map_congr_left fun b hb => hagree b hb
    constructor
    · subst hs'
      exact hview _ fun b hb => by
        have hb' : b < s.heap.length := hwf b hb
        simp [List.getD, List.getElem?_append_left hb']
    · subst hs' ha
      show viewContacts
          ⟨(s.heap ++ [s.heap.getD addr default]).set s.heap.length r, s.contacts⟩ =
        viewContacts s
      refine hview _ fun b hb => ?_
      have hb' : b < s.heap.length := hwf b hb
      have hset : (s.heap ++ [s.heap.getD addr default]).set s.heap.length r
          = s.heap ++ [r] := by
        rw [List.set_append]
        simp
      rw [hset]
      simp [List.getD, List.getElem?_append_left hb']

theorem C5_amended_witness :
    viewContacts (writeRecord
        ⟨[⟨"Ana Silva", "(11) 99999-9999", "", "", none⟩,
          ⟨"Ana Silva", "(11) 99999-9999", "", "", none⟩], [0]⟩ 1
        ⟨"X", "", "", "", none⟩) =
      viewContacts ⟨[⟨"Ana Silva", "(11) 99999-9999", "", "", none⟩], [0]⟩ :=
  (C5_amended ⟨[⟨"Ana Silva", "(11) 99999-9999", "", "", none⟩], [0]⟩
      ⟨[⟨"Ana Silva", "(11) 99999-9999", "", "", none⟩,
        ⟨"Ana Silva", "(11) 99999-9999", "", "", none⟩], [0]⟩ 0 1
      ⟨"X", "", "", "", none⟩ (by unfold RefState.wfRefs; decide) (by decide)).2

theorem validateContact_fields {c : ContactData} (h : validateContact c = true) :
    (jsTrim c.phone ≠ "" → dmIsValidPhone c.phone = true) ∧
    (jsTrim c.email ≠ "" → dmIsValidEmail c.email = true) := by
  unfold validateContact at h
  split at h
  · exact absurd h (by simp)
  · constructor
    · intro hp
      have hph : c.phone ≠ "" := jsTrim_ne_empty hp
      by_cases hv : dmIsValidPhone c.phone = true
      · exact hv
      · simp [hph, hp, hv] at h
    · intro hp
      have hph : c.email ≠ "" := jsTrim_ne_empty hp
      by_cases hv : dmIsValidEmail c.email = true
      · exact hv
      · simp [hph, hp, hv] at h

/-- The store invariant actually enforced by the code: every stored record's
phone (when non-blank) passes `DataManager.isValidPhone` and its email (when
non-blank) passes `DataManager.isValidEmail`. -/
def StoreValid (st : DMState) : Prop :=
  ∀ c ∈ st.contacts,
    (jsTrim c.phone ≠ "" → dmIsValidPhone c.phone = true) ∧
    (jsTrim c.email ≠ "" → dmIsValidEmail c.email = true)

/-- C2: the claimed invariant fails twice over.  `addContact` accepts the
phone `"(11) 1234-5678"`, which the §4.1 rule (`PatternMatcher.validatePhone`)
rejects (landline third digit `1`), so even `addContact` does not maintain the
§4.1 invariant; and `restoreSession` performs no validation at all, storing a
record whose phone fails even the store's own format rule. -/
theorem C2_counterexample :
    (addContact ⟨[]⟩ ⟨"Ana Silva", "(11) 1234-5678", "", "", none⟩ 5 =
        (⟨[⟨"Ana Silva", "(11) 1234-5678", "", "", some 5⟩]⟩, true) ∧
      validatePhone "(11) 1234-5678" = false) ∧
    (restoreSession ⟨[]⟩ (some [⟨"Bob Roberto", "123", "", "", some 0⟩]) true =
        (⟨[⟨"Bob Roberto", "123", "", "", some 0⟩]⟩, true) ∧
      dmIsValidPhone "123" = false) := by
  decide

/-- C2 (amended): the invariant that holds is the format-pattern one
(`StoreValid`, built from the store's own `isValidPhone`/`isValidEmail`), and
it is preserved by `addContact` and `updateContact` only; `restoreSession` and
`importSessionData` bypass validation and can break it. -/
theorem C2_amended (st : DMState) (c : ContactData) (now : Int) (i : Nat)
    (hst : StoreValid st) :
    StoreValid (addContact st c now).1 ∧ StoreValid (updateContact st i c).1 := by
  constructor
  · unfold addContact
    by_cases hv : validateContact c = true
    · by_cases hd : isDuplicateInArray c st.contacts = true
      · simp only [hv, hd, Bool.not_true, Bool.false_eq_true, if_false, if_true]
        exact hst
      · simp only [hv, hd, Bool.not_true, Bool.false_eq_true, if_false]
        intro x hx
        rcases List.mem_append.mp hx with hx | hx
        · exact hst x hx
        · have hx' : x = { c with timestamp := some (c.timestamp.getD now) } := by
            simpa using hx
          subst hx'
          exact validateContact_fields hv
    · have hv' : validateContact c = false := by
        revert hv; cases validateContact c <;> simp
      simp only [hv', Bool.not_false, if_true]
      exact hst
  · unfold updateContact
    by_cases hi : st.contacts.length ≤ i
    · simp only [hi, if_true]
      exact hst
    · rw [if_neg hi]
      by_cases hv : validateContact c = true
      · by_cases hd : isDuplicateInArray c (st.contacts.eraseIdx i) = true
        · simp only [hv, hd, Bool.not_true, Bool.false_eq_true, if_false, if_true]
          exact hst
        · simp only [hv, hd, Bool.not_true, Bool.false_eq_true, if_false]
          intro x hx
          rcases List.mem_or_eq_of_mem_set hx with hx | hx
          · exact hst x hx
          · subst hx
            exact validateContact_fields hv
      · have hv' : validateContact c = false := by
          revert hv; cases validateContact c <;> simp
        simp only [hv', Bool.not_false, if_true]
        exact hst

theorem C2_amended_witness :
    StoreValid (addContact ⟨[]⟩ ⟨"X Y", "", "a@b.co", "", none⟩ 5).1 ∧
      StoreValid (updateContact ⟨[]⟩ 0 ⟨"X Y", "", "a@b.co", "", none⟩).1 :=
  C2_amended ⟨[]⟩ ⟨"X Y", "", "a@b.co", "", none⟩ 5 0
    (fun c hc => absurd hc (by simp))

/-- C3: on an empty store a valid record with name and phone is accepted;
re-adding a record with the same name (case/whitespace-insensitive) and the
same phone (normalized) is rejected leaving `count() = 1`; adding a valid
record with the same name but different phone and email is accepted, giving
`count() = 2`. -/
theorem C3_duplicate_rule (c c2 c3 : ContactData) (n1 n2 n3 : Int)
    (hv : validateContact c = true)
    (hcp : jsTrim c.phone ≠ "")
    (hname2 : jsTrim (jsToLowerStr c2.name) = jsTrim (jsToLowerStr c.name))
    (hp2a : jsTrim c2.phone ≠ "")
    (hp2b : dmNormalizePhone c2.phone = dmNormalizePhone c.phone)
    (hname3 : jsTrim (jsToLowerStr c3.name) = jsTrim (jsToLowerStr c.name))
    (hv3 : validateContact c3 = true)
    (hp3 : dmNormalizePhone c3.phone ≠ dmNormalizePhone c.phone)
    (he3 : jsTrim (jsToLowerStr c3.email) ≠ jsTrim (jsToLowerStr c.email) ∨
      jsTrim c3.email = "") :
    (addContact ⟨[]⟩ c n1).2 = true ∧
    getContactCount (addContact ⟨[]⟩ c n1).1 = 1 ∧
    addContact (addContact ⟨[]⟩ c n1).1 c2 n2 = ((addContact ⟨[]⟩ c n1).1, false) ∧
    (addContact (addContact ⟨[]⟩ c n1).1 c3 n3).2 = true ∧
    getContactCount (addContact (addContact ⟨[]⟩ c n1).1 c3 n3).1 = 2 := by
  have hst1 : addContact ⟨[]⟩ c n1 =
      (⟨[{ c with timestamp := some (c.timestamp.getD n1) }]⟩, true) := by
    unfold addContact
    simp [hv, isDuplicateInArray]
  set c' : ContactData := { c with timestamp := some (c.timestamp.getD n1) } with hc'
  have e1 : c'.name = c.name := rfl
  have e2 : c'.phone = c.phone := rfl
  have e3 : c'.email = c.email := rfl
  have hmatch2 : contactsMatch c' c2 = true := by
    unfold contactsMatch
    rw [e1, e2]
    simp [hname2, hp2b, hcp, hp2a, jsTrim_ne_empty hcp, jsTrim_ne_empty hp2a]
  have hdup2 : isDuplicateInArray c2 [c'] = true := by
    simp [isDuplicateInArray, hmatch2]
  have h2 : addContact ⟨[c']⟩ c2 n2 = (⟨[c']⟩, false) := by
    unfold addContact
    by_cases hv2 : validateContact c2 = true
    · simp [hv2, hdup2]
    · have hv2' : validateContact c2 = false := by
        revert hv2; cases validateContact c2 <;> simp
      simp [hv2']
  have hp3' : dmNormalizePhone c.phone ≠ dmNormalizePhone c3.phone := Ne.symm hp3
  have hmatch3 : contactsMatch c' c3 = false := by
    unfold contactsMatch
    rw [e1, e2, e3]
    cases he3 with
    | inl h => simp [hp3', Ne.symm h]
    | inr h => simp [hp3', h]
  have hdup3 : isDuplicateInArray c3 [c'] = false := by
    simp [isDuplicateInArray, hmatch3]
  have h3 : addContact ⟨[c']⟩ c3 n3 =
      (⟨[c', { c3 with timestamp := some (c3.timestamp.getD n3) }]⟩, true) := by
    unfold addContact
    simp [hv3, hdup3]
  rw [hst1]
  exact ⟨rfl, rfl, h2, by rw [h3], by rw [h3]; rfl⟩

theorem C3_duplicate_rule_witness :
    ((addContact ⟨[]⟩ ⟨"Ana Silva", "(11) 99999-9999", "", "", none⟩ 1).2 = true ∧
      getContactCount (addContact ⟨[]⟩ ⟨"Ana Silva", "(11) 99999-9999", "", "", none⟩ 1).1 = 1 ∧
      addContact (addContact ⟨[]⟩ ⟨"Ana Silva", "(11) 99999-9999", "", "", none⟩ 1).1
          ⟨"ana silva ", "11999999999", "", "", none⟩ 2 =
        ((addContact ⟨[]⟩ ⟨"Ana Silva", "(11) 99999-9999", "", "", none⟩ 1).1, false) ∧
      (addContact (addContact ⟨[]⟩ ⟨"Ana Silva", "(11) 99999-9999", "", "", none⟩ 1).1
          ⟨"Ana Silva", "(21) 2345-6789", "", "", none⟩ 3).2 = true ∧
      getContactCount
        (addContact (addContact ⟨[]⟩ ⟨"Ana Silva", "(11) 99999-9999", "", "", none⟩ 1).1
          ⟨"Ana Silva", "(21) 2345-6789", "", "", none⟩ 3).1 = 2) :=
  C3_duplicate_rule ⟨"Ana Silva", "(11) 99999-9999", "", "", none⟩
    ⟨"ana silva ", "11999999999", "", "", none⟩
    ⟨"Ana Silva", "(21) 2345-6789", "", "", none⟩ 1 2 3
    (by decide) (by decide) (by decide) (by decide) (by decide) (by decide)
    (by decide) (by decide) (Or.inr (by decide))

/-- C6: the claim says page-level dedup merges two records sharing a
*normalized* phone (digits only).  The code compares phone strings exactly:
these two records' phones have identical digit content, yet both are kept. -/
theorem C6_counterexample :
    digitsOf "(11) 99999-9999" = digitsOf "11999999999" ∧
      removeDuplicateContacts
          [⟨"Ana", "(11) 99999-9999", "", "", none⟩,
           ⟨"Bia", "11999999999", "", "", none⟩] =
        [⟨"Ana", "(11) 99999-9999", "", "", none⟩,
         ⟨"Bia", "11999999999", "", "", none⟩] := by
  decide

/-- C6 (amended): two candidates are merged (not both kept) whenever they
share a non-empty *identical* phone string or a case-insensitive email match,
names being irrelevant; the first-seen record survives and inherits the
other's fields when missing — except that a record repeating the survivor's
exact `email.toLowerCase()|phone` key is dropped without field inheritance.
The end-to-end scenario (same text blocks, canonical phones) still yields one
fully-populated record. -/
theorem C6_amended :
    (∀ c1 c2 : ContactData,
      ((c2.email ≠ "" ∧ jsToLowerStr c2.email = jsToLowerStr c1.email) ∨
        (c2.phone ≠ "" ∧ c2.phone = c1.phone)) →
      removeDuplicateContacts [c1, c2] =
        [if dedupKey c1 == dedupKey c2 then c1 else mergeFill c1 c2]) ∧
    removeDuplicateContacts
        (extractContactsFromText "João Silva - joao@email.com - (11) 99999-9999" "page" 7 ++
          extractContactsFromText "João Silva - joao@email.com" "page" 7) =
      [⟨"João Silva", "(11) 99999-9999", "joao@email.com", "page", some 7⟩] := by
  constructor
  · intro c1 c2 hshare
    have hm : scannerMatches c2 c1 = true := by
      unfold scannerMatches
      rcases hshare with ⟨h1, h2⟩ | ⟨h1, h2⟩
      · simp [h1, h2]
      · rw [h2] at h1
        simp [h1, h2]
    by_cases hk : dedupKey c1 = dedupKey c2
    · have hkeq : dedupKey c2 = dedupKey c1 := hk.symm
      simp [removeDuplicateContacts, rdcGo, hkeq]
    · have hk2 : ¬dedupKey c2 = dedupKey c1 := fun h => hk h.symm
      have hkb : (dedupKey c1 == dedupKey c2) = false := by
        rw [beq_eq_false_iff_ne]; exact hk
      simp [removeDuplicateContacts, rdcGo, hk, hk2, hm, List.findIdx?, hkb]
  · decide

theorem C6_amended_witness :
    removeDuplicateContacts
        [⟨"Ana", "(11) 99999-9999", "a@b.co", "", none⟩,
         ⟨"", "(11) 99999-9999", "", "", none⟩] =
      [if dedupKey ⟨"Ana", "(11) 99999-9999", "a@b.co", "", none⟩ ==
          dedupKey ⟨"", "(11) 99999-9999", "", "", none⟩ then
        (⟨"Ana", "(11) 99999-9999", "a@b.co", "", none⟩ : ContactData)
      else
        mergeFill ⟨"Ana", "(11) 99999-9999", "a@b.co", "", none⟩
          ⟨"", "(11) 99999-9999", "", "", none⟩] :=
  C6_amended.1 ⟨"Ana", "(11) 99999-9999", "a@b.co", "", none⟩
    ⟨"", "(11) 99999-9999", "", "", none⟩ (Or.inr ⟨by decide, rfl⟩)

theorem pushPhone_inv (acc : List String) (m : List Char)
    (h1 : ∀ p ∈ acc, validatePhone p = true) (h2 : acc.Nodup) :
    (∀ p ∈ pushPhone acc m, validatePhone p = true) ∧ (pushPhone acc m).Nodup := by
  unfold pushPhone
  cases hf : formatPhone ⟨m⟩ with
  | none => exact ⟨h1, h2⟩
  | some phone =>
    dsimp only
    by_cases hc : (validatePhone phone && !acc.contains phone) = true
    · rw [if_pos hc]
      simp only [Bool.and_eq_true, Bool.not_eq_true'] at hc
      obtain ⟨hval, hcon⟩ := hc
      have hnotmem : phone ∉ acc := by
        intro hmem
        rw [show acc.contains phone = List.elem phone acc from rfl] at hcon
        rw [List.elem_iff.mpr hmem] at hcon
        exact Bool.true_eq_false.mp hcon
      constructor
      · intro p hp
        rcases List.mem_append.mp hp with hp | hp
        · exact h1 p hp
        · have : p = phone := by simpa using hp
          subst this; exact hval
      · rw [List.nodup_append]
        refine ⟨h2, List.nodup_singleton _, ?_⟩
        intro a ha hb
        have : a = phone := by simpa using hb
        subst this
        exact hnotmem ha
    · rw [if_neg hc]; exact ⟨h1, h2⟩

theorem foldl_pushPhone_inv (ms : List (List Char)) (acc : List String)
    (h1 : ∀ p ∈ acc, validatePhone p = true) (h2 : acc.Nodup) :
    (∀ p ∈ ms.foldl pushPhone acc, validatePhone p = true) ∧
      (ms.foldl pushPhone acc).Nodup := by
  induction ms generalizing acc with
  | nil => exact ⟨h1, h2⟩
  | cons m ms ih =>
    simp only [List.foldl_cons]
    obtain ⟨g1, g2⟩ := pushPhone_inv acc m h1 h2
    exact ih _ g1 g2

theorem foldl_patterns_inv (pats : List Reg) (ct : List Char) (acc : List String)
    (h1 : ∀ p ∈ acc, validatePhone p = true) (h2 : acc.Nodup) :
    (∀ p ∈ pats.foldl (fun acc pat => (matchAll pat ct).foldl pushPhone acc) acc,
        validatePhone p = true) ∧
      (pats.foldl (fun acc pat => (matchAll pat ct).foldl pushPhone acc) acc).Nodup := by
  induction pats generalizing acc with
  | nil => exact ⟨h1, h2⟩
  | cons p ps ih =>
    simp only [List.foldl_cons]
    obtain ⟨g1, g2⟩ := foldl_pushPhone_inv (matchAll p ct) acc h1 h2
    exact ih _ g1 g2

/-- C7: every element of `extractPhones s` passes `validatePhone`, and the
output contains no duplicate canonical values (each phone appears once, in
first-success order by construction of the accumulator). -/
theorem C7_extractPhones_valid_nodup (s : String) :
    (∀ p ∈ extractPhones s, validatePhone p = true) ∧ (extractPhones s).Nodup := by
  unfold extractPhones
  split
  · exact ⟨fun p hp => absurd hp (by simp), List.nodup_nil⟩
  · exact foldl_patterns_inv _ _ [] (fun p hp => absurd hp (by simp)) List.nodup_nil

theorem C7_extractPhones_valid_nodup_witness :
    validatePhone "(11) 99999-9999" = true :=
  (C7_extractPhones_valid_nodup "tel: (11) 99999-9999").1 "(11) 99999-9999" (by decide)


/-- `digitsOf` recovers exactly the digit content of a formatted phone
string. -/
theorem digitsOf_fmt (a b : Char) (l : List Char) (k : Nat)
    (ha : a.isDigit = true) (hb : b.isDigit = true)
    (hall : ∀ x ∈ l, x.isDigit = true) :
    digitsOf ⟨'(' :: a :: b :: ')' :: ' ' :: (l.take k ++ '-' :: l.drop k)⟩
      = a :: b :: l := by
  show List.filter Char.isDigit
      ('(' :: a :: b :: ')' :: ' ' :: (l.take k ++ '-' :: l.drop k)) = a :: b :: l
  simp [List.filter_cons, List.filter_append, ha, hb,
    List.filter_eq_self.mpr (fun x hx => hall x (List.mem_of_mem_take hx)),
    List.filter_eq_self.mpr (fun x hx => hall x (List.mem_of_mem_drop hx)),
    List.take_append_drop]

/-- C8: `formatPhone` is idempotent on its own canonical output: whenever
`formatPhone d` succeeds with `out`, `formatPhone out` returns `out` again. -/
theorem C8_formatPhone_idempotent (d out : String) (h : formatPhone d = some out) :
    formatPhone out = some out := by
  have halld : ∀ x ∈ digitsOf d, x.isDigit = true := fun x hx => (List.mem_filter.mp hx).2
  have hallds : ∀ x ∈ stripCC (digitsOf d), x.isDigit = true := by
    intro x hx
    unfold stripCC at hx
    split at hx
    · exact halld x (List.mem_of_mem_drop hx)
    · split at hx
      · exact halld x (List.mem_of_mem_drop hx)
      · exact halld x hx
  unfold formatPhone at h
  rcases hmatch : stripCC (digitsOf d) with _ | ⟨a, _ | ⟨b, _ | ⟨c, rest⟩⟩⟩
  · rw [hmatch] at h; exact absurd h (by simp [formatDigits])
  · rw [hmatch] at h; exact absurd h (by simp [formatDigits])
  · rw [hmatch] at h; exact absurd h (by simp [formatDigits])
  · rw [hmatch] at h
    rw [hmatch] at hallds
    have ha : a.isDigit = true := hallds a (by simp)
    have hb : b.isDigit = true := hallds b (by simp)
    have hcd : ∀ x ∈ c :: rest, x.isDigit = true := fun x hx =>
      hallds x (List.mem_cons_of_mem _ (List.mem_cons_of_mem _ hx))
    unfold formatDigits at h
    split at h
    · exact absurd h (by simp)
    · rename_i hlen
      dsimp only at h
      split at h
      · exact absurd h (by simp)
      · rename_i harea
        split at h
        · rename_i hlen11
          split at h
          · exact absurd h (by simp)
          · rename_i hc9
            have hout : out = ⟨'(' :: a :: b :: ')' :: ' ' ::
                ((c :: rest).take 5 ++ '-' :: (c :: rest).drop 5)⟩ :=
              (Option.some.inj h).symm
            subst hout
            have hr8 : rest.length = 8 := by
              simp at hlen11; omega
            have hlen' : (a :: b :: c :: rest).length = 11 := by simp [hr8]
            unfold formatPhone
            rw [digitsOf_fmt a b (c :: rest) 5 ha hb hcd]
            have hstrip : stripCC (a :: b :: c :: rest) = a :: b :: c :: rest := by
              unfold stripCC
              simp [hlen']
            rw [hstrip]
            unfold formatDigits
            rw [if_neg (by simp [hlen'])]
            dsimp only
            rw [if_neg harea, if_pos (by simp [hlen']), if_neg hc9]
        · rename_i hlen11'
          split at h
          · rename_i hlen10
            split at h
            · exact absurd h (by simp)
            · rename_i hc901
              have hout : out = ⟨'(' :: a :: b :: ')' :: ' ' ::
                  ((c :: rest).take 4 ++ '-' :: (c :: rest).drop 4)⟩ :=
                (Option.some.inj h).symm
              subst hout
              have hr7 : rest.length = 7 := by
                simp at hlen10
                omega
              have hlen' : (a :: b :: c :: rest).length = 10 := by simp [hr7]
              unfold formatPhone
              rw [digitsOf_fmt a b (c :: rest) 4 ha hb hcd]
              have hstrip : stripCC (a :: b :: c :: rest) = a :: b :: c :: rest := by
                unfold stripCC
                simp [hlen']
              rw [hstrip]
              unfold formatDigits
              rw [if_neg (by simp [hlen'])]
              dsimp only
              rw [if_neg harea, if_neg (by simp [hlen']), if_pos (by simp [hlen']),
                if_neg hc901]
          · exact absurd h (by simp)

theorem C8_formatPhone_idempotent_witness :
    formatPhone "(11) 99999-9999" = some "(11) 99999-9999" :=
  C8_formatPhone_idempotent "11999999999" "(11) 99999-9999" (by decide)

/-! ### The regex engine lemmas and claim C9 -/

theorem option_orElse_some {α : Type} {a b : Option α} {v : α}
    (h : (a <|> b) = some v) : a = some v ∨ (a = none ∧ b = some v) := by
  cases a with
  | some w => left; simpa using h
  | none => right; exact ⟨rfl, by simpa using h⟩

/-- The previous-character value after consuming `l` (last of `l`, or the
incoming `prev` when nothing was consumed). -/
def lastOpt (l : List Char) (prev : Option Char) : Option Char :=
  match l.getLast? with
  | some c => some c
  | none => prev

theorem lastOpt_nil (prev : Option Char) : lastOpt [] prev = prev := rfl

theorem lastOpt_cons (x : Char) (xs : List Char) (prev : Option Char) :
    lastOpt (x :: xs) prev = lastOpt xs (some x) := by
  cases xs with
  | nil => rfl
  | cons y t =>
    cases h : (y :: t).getLast? with
    | none => simp at h
    | some c => simp [lastOpt, List.getLast?_cons_cons, h]

theorem matchRep_nil {p : Char → Bool}
    {k : Option Char → List Char → Option (Option Char × List Char)}
    (min : Nat) (max? : Option Nat) (prev : Option Char) :
    matchRep p k min max? prev [] = if min == 0 then k prev [] else none := rfl

theorem matchRep_cons {p : Char → Bool}
    {k : Option Char → List Char → Option (Option Char × List Char)}
    (min : Nat) (max? : Option Nat) (prev : Option Char) (c : Char) (rest : List Char) :
    matchRep p k min max? prev (c :: rest) =
      if (p c && maxAllows max?) = true then
        (matchRep p k (min - 1) (maxDec max?) (some c) rest) <|>
          (if min == 0 then k prev (c :: rest) else none)
      else if min == 0 then k prev (c :: rest) else none := rfl

theorem matchRep_none_inv {p : Char → Bool}
    {k : Option Char → List Char → Option (Option Char × List Char)}
    {v : Option Char × List Char} :
    ∀ {rest : List Char} {min : Nat} {prev : Option Char},
    matchRep p k min none prev rest = some v →
    ∃ n pv, min ≤ n ∧ n ≤ rest.length ∧ (rest.take n).all p = true ∧
      k pv (rest.drop n) = some v := by
  intro rest
  induction rest with
  | nil =>
    intro min prev h
    rw [matchRep_nil] at h
    by_cases hm : (min == 0) = true
    · rw [if_pos hm] at h
      exact ⟨0, prev, by simpa using hm, by simp, by simp, h⟩
    · rw [if_neg hm] at h; exact absurd h (by simp)
  | cons c rest ih =>
    intro min prev h
    rw [matchRep_cons] at h
    by_cases hpc : (p c && maxAllows none) = true
    · rw [if_pos hpc] at h
      rcases option_orElse_some h with hd | ⟨_, hs⟩
      · obtain ⟨n, pv, hmin, hlen, hall, hk⟩ := ih hd
        refine ⟨n + 1, pv, by omega, Nat.succ_le_succ hlen, ?_, hk⟩
        simp only [List.take_succ_cons, List.all_cons]
        rw [Bool.and_eq_true] at hpc ⊢
        exact ⟨hpc.1, hall⟩
      · by_cases hm : (min == 0) = true
        · rw [if_pos hm] at hs
          exact ⟨0, prev, by simpa using hm, by simp, by simp, hs⟩
        · rw [if_neg hm] at hs; exact absurd hs (by simp)
    · rw [if_neg hpc] at h
      by_cases hm : (min == 0) = true
      · rw [if_pos hm] at h
        exact ⟨0, prev, by simpa using hm, by simp, by simp, h⟩
      · rw [if_neg hm] at h; exact absurd h (by simp)

theorem repGreedy {p : Char → Bool}
    {k : Option Char → List Char → Option (Option Char × List Char)}
    {v : Option Char × List Char} :
    ∀ (xs ys : List Char) (min : Nat) (prev : Option Char),
    (∀ c ∈ xs, p c = true) →
    (∀ c, ys.head? = some c → p c = false) →
    min ≤ xs.length →
    k (lastOpt xs prev) ys = some v →
    matchRep p k min none prev (xs ++ ys) = some v := by
  intro xs
  induction xs with
  | nil =>
    intro ys min prev _ hstop hmin hk
    simp only [List.length_nil, Nat.le_zero] at hmin
    subst hmin
    rw [List.nil_append]
    cases ys with
    | nil =>
      rw [matchRep_nil, if_pos (show ((0 : Nat) == 0) = true from rfl)]
      exact hk
    | cons c ys' =>
      rw [matchRep_cons, if_neg (by simp [hstop c rfl, maxAllows]),
        if_pos (show ((0 : Nat) == 0) = true from rfl)]
      exact hk
  | cons x xs ih =>
    intro ys min prev hall hstop hmin hk
    rw [List.cons_append, matchRep_cons,
      if_pos (by simp [hall x (by simp), maxAllows])]
    have hd : matchRep p k (min - 1) (maxDec none) (some x) (xs ++ ys) = some v := by
      show matchRep p k (min - 1) none (some x) (xs ++ ys) = some v
      refine ih ys (min - 1) (some x) (fun c hc => hall c (by simp [hc])) hstop
        (by simp at hmin; omega) ?_
      rw [← lastOpt_cons x xs prev]
      exact hk
    rw [hd]
    rfl


theorem letter_domain {c : Char} (h : isAsciiLetter c = true) : isDomainChar c = true := by
  unfold isAsciiLetter at h
  unfold isDomainChar
  simp [h]

theorem letter_ne_dot {c : Char} (h : isAsciiLetter c = true) : c ≠ '.' := by
  intro he; subst he; exact absurd h (by decide)

theorem repRunFail {p : Char → Bool}
    {k : Option Char → List Char → Option (Option Char × List Char)} :
    ∀ (xs ys : List Char) (min : Nat) (prev : Option Char),
    (∀ c ∈ xs, p c = true) →
    (∀ c, ys.head? = some c → p c = false) →
    (∀ pv n, n ≤ xs.length → k pv (xs.drop n ++ ys) = none) →
    matchRep p k min none prev (xs ++ ys) = none := by
  intro xs
  induction xs with
  | nil =>
    intro ys min prev _ hstop hk
    rw [List.nil_append]
    cases ys with
    | nil =>
      rw [matchRep_nil]
      split
      · exact hk prev 0 (by simp)
      · rfl
    | cons c ys' =>
      rw [matchRep_cons, if_neg (by simp [hstop c rfl, maxAllows])]
      split
      · exact hk prev 0 (by simp)
      · rfl
  | cons x xs ih =>
    intro ys min prev hall hstop hk
    rw [List.cons_append, matchRep_cons,
      if_pos (by simp [hall x (by simp), maxAllows])]
    have hd : matchRep p k (min - 1) (maxDec none) (some x) (xs ++ ys) = none := by
      show matchRep p k (min - 1) none (some x) (xs ++ ys) = none
      exact ih ys (min - 1) (some x) (fun c hc => hall c (by simp [hc])) hstop
        (fun pv n hn => hk pv (n + 1) (by simp; omega))
    rw [hd, Option.none_orElse]
    split
    · exact hk prev 0 (by simp)
    · rfl

theorem seqAt_none (X : Reg) (k : Option Char → List Char → Option (Option Char × List Char))
    (pv : Option Char) (rest : List Char)
    (h : ∀ c, rest.head? = some c → c ≠ '@') :
    matchR (.seq (.cls (· == '@')) X) pv rest k = none := by
  cases rest with
  | nil => rfl
  | cons c r =>
    simp only [matchR]
    rw [if_neg (by simp [h c rfl])]

theorem repNoStop {kdom : Option Char → List Char → Option (Option Char × List Char)} :
    ∀ (ts : List Char) (prev : Option Char),
    (∀ c ∈ ts, isDomainChar c = true ∧ c ≠ '.') →
    (∀ pv, kdom pv [] = none) →
    (∀ pv c r, c ≠ '.' → kdom pv (c :: r) = none) →
    matchRep isDomainChar kdom 0 none prev ts = none := by
  intro ts
  induction ts with
  | nil =>
    intro prev _ hknil _
    rw [matchRep_nil, if_pos (show ((0 : Nat) == 0) = true from rfl)]
    exact hknil prev
  | cons c t ih =>
    intro prev hcons hknil hkcons
    obtain ⟨hpc, hcd⟩ := hcons c (by simp)
    rw [matchRep_cons, if_pos (by simp [hpc, maxAllows])]
    simp only [maxDec, Nat.zero_sub, Nat.sub_self]
    rw [ih (some c) (fun x hx => hcons x (by simp [hx])) hknil hkcons,
      Option.none_orElse, if_pos (show ((0 : Nat) == 0) = true from rfl)]
    exact hkcons prev c t hcd

theorem walkP {kdom : Option Char → List Char → Option (Option Char × List Char)}
    (T : List Char) {v : Option Char × List Char}
    (hT : ∀ c ∈ T, isAsciiLetter c = true)
    (hknil : ∀ pv, kdom pv [] = none)
    (hkcons : ∀ pv c r, c ≠ '.' → kdom pv (c :: r) = none)
    (hkdot : ∀ pv, kdom pv ('.' :: T) = some v) :
    ∀ (P : List Char) (prev : Option Char),
    (∀ c ∈ P, isDomainChar c = true) →
    matchRep isDomainChar kdom 0 none prev (P ++ '.' :: T) = some v := by
  intro P
  induction P with
  | nil =>
    intro prev _
    rw [List.nil_append, matchRep_cons,
      if_pos (by simp [maxAllows, (by decide : isDomainChar '.' = true)])]
    simp only [maxDec, Nat.zero_sub, Nat.sub_self]
    rw [repNoStop T (some '.')
      (fun c hc => ⟨letter_domain (hT c hc), letter_ne_dot (hT c hc)⟩) hknil hkcons]
    rw [Option.none_orElse, if_pos (show ((0 : Nat) == 0) = true from rfl)]
    exact hkdot prev
  | cons q P' ih =>
    intro prev hP
    rw [List.cons_append, matchRep_cons,
      if_pos (by simp [hP q (by simp), maxAllows])]
    simp only [maxDec, Nat.zero_sub, Nat.sub_self]
    rw [ih (some q) (fun c hc => hP c (by simp [hc]))]
    rfl

theorem domMatch {kdom : Option Char → List Char → Option (Option Char × List Char)}
    (P T : List Char) (prev : Option Char) {v : Option Char × List Char}
    (hP : ∀ c ∈ P, isDomainChar c = true) (hPne : P ≠ [])
    (hT : ∀ c ∈ T, isAsciiLetter c = true)
    (hknil : ∀ pv, kdom pv [] = none)
    (hkcons : ∀ pv c r, c ≠ '.' → kdom pv (c :: r) = none)
    (hkdot : ∀ pv, kdom pv ('.' :: T) = some v) :
    matchRep isDomainChar kdom 1 none prev (P ++ '.' :: T) = some v := by
  cases P with
  | nil => exact absurd rfl hPne
  | cons q P' =>
    rw [List.cons_append, matchRep_cons,
      if_pos (by simp [hP q (by simp), maxAllows])]
    simp only [maxDec, Nat.zero_sub, Nat.sub_self]
    rw [walkP T hT hknil hkcons hkdot P' (some q) (fun c hc => hP c (by simp [hc]))]
    rfl

theorem emailCore_fwd (L P T : List Char) (prev : Option Char)
    {k : Option Char → List Char → Option (Option Char × List Char)}
    {v : Option Char × List Char}
    (hL : ∀ c ∈ L, isLocalChar c = true) (hLne : L ≠ [])
    (hP : ∀ c ∈ P, isDomainChar c = true) (hPne : P ≠ [])
    (hT : ∀ c ∈ T, isAsciiLetter c = true) (hTlen : 2 ≤ T.length)
    (hk : k (lastOpt T (some '.')) [] = some v) :
    matchR emailCoreReg prev (L ++ '@' :: (P ++ '.' :: T)) k = some v := by
  unfold emailCoreReg
  simp only [matchR]
  apply repGreedy L ('@' :: (P ++ '.' :: T)) 1 prev hL
    (fun c hc => by
      have : c = '@' := by simpa using hc.symm
      subst this; decide)
    (Nat.one_le_iff_ne_zero.mpr (fun h0 => hLne (List.length_eq_zero.mp h0)))
  show matchR (.seq (.cls (· == '@'))
      (.seq (.rep isDomainChar 1 none) (.seq (.cls (· == '.'))
        (.rep isAsciiLetter 2 none)))) (lastOpt L prev) ('@' :: (P ++ '.' :: T)) k = some v
  simp only [matchR]
  rw [if_pos (show (('@' == '@') = true) from rfl)]
  apply domMatch P T (some '@') hP hPne hT
  · intro pv; rfl
  · intro pv c r hcd
    show matchR (.seq (.cls (· == '.')) (.rep isAsciiLetter 2 none)) pv (c :: r) k = none
    simp only [matchR]
    rw [if_neg (by simp [hcd])]
  · intro pv
    show matchR (.seq (.cls (· == '.')) (.rep isAsciiLetter 2 none)) pv ('.' :: T) k = some v
    simp only [matchR]
    rw [if_pos (show (('.' == '.') = true) from rfl)]
    have := repGreedy (p := isAsciiLetter) (k := k) T [] 2 (some '.') hT
      (fun c hc => by simp at hc) hTlen hk
    rw [List.append_nil] at this
    exact this


theorem emailCore_inv {s : List Char} (h : regexFullMatch emailCoreReg s = true) :
    ∃ L P T, s = L ++ '@' :: (P ++ '.' :: T) ∧
      L ≠ [] ∧ (∀ c ∈ L, isLocalChar c = true) ∧
      P ≠ [] ∧ (∀ c ∈ P, isDomainChar c = true) ∧
      (∀ c ∈ T, isAsciiLetter c = true) ∧ 2 ≤ T.length := by
  unfold regexFullMatch at h
  rw [Option.isSome_iff_exists] at h
  obtain ⟨v, hv⟩ := h
  unfold emailCoreReg at hv
  simp only [matchR] at hv
  obtain ⟨n1, pv1, hmin1, hlen1, hall1, hk1⟩ := matchRep_none_inv hv
  cases hd : s.drop n1 with
  | nil => rw [hd] at hk1; simp only [matchR] at hk1; exact absurd hk1 (by simp)
  | cons c0 d =>
    rw [hd] at hk1
    simp only [matchR] at hk1
    by_cases hat : (c0 == '@') = true
    case neg => rw [if_neg hat] at hk1; exact absurd hk1 (by simp)
    rw [if_pos hat] at hk1
    have hc0 : c0 = '@' := by simpa using hat
    subst hc0
    obtain ⟨n2, pv2, hmin2, hlen2, hall2, hk2⟩ := matchRep_none_inv hk1
    cases hd2 : d.drop n2 with
    | nil => rw [hd2] at hk2; simp only [matchR] at hk2; exact absurd hk2 (by simp)
    | cons c1 t0 =>
      rw [hd2] at hk2
      simp only [matchR] at hk2
      by_cases hdot : (c1 == '.') = true
      case neg => rw [if_neg hdot] at hk2; exact absurd hk2 (by simp)
      rw [if_pos hdot] at hk2
      have hc1 : c1 = '.' := by simpa using hdot
      subst hc1
      obtain ⟨n3, pv3, hmin3, hlen3, hall3, hk3⟩ := matchRep_none_inv hk2
      have hempty : t0.drop n3 = [] := by
        by_cases he : (t0.drop n3).isEmpty = true
        · exact List.isEmpty_iff.mp he
        · rw [if_neg (by simpa using he)] at hk3
          exact absurd hk3 (by simp)
      have htlen : t0.length ≤ n3 := List.drop_eq_nil_iff.mp hempty
      have htake : t0.take n3 = t0 := List.take_of_length_le htlen
      refine ⟨s.take n1, d.take n2, t0, ?_, ?_, ?_, ?_, ?_, ?_, ?_⟩
      · conv_lhs => rw [← List.take_append_drop n1 s]
        rw [hd]
        congr 2
        conv_lhs => rw [← List.take_append_drop n2 d]
        rw [hd2]
      · have : (s.take n1).length = n1 := by
          rw [List.length_take]; omega
        intro hnil
        rw [hnil] at this
        simp at this
        omega
      · intro c hc
        exact List.all_eq_true.mp hall1 c hc
      · have : (d.take n2).length = n2 := by
          rw [List.length_take]; omega
        intro hnil
        rw [hnil] at this
        simp at this
        omega
      · intro c hc
        exact List.all_eq_true.mp hall2 c hc
      · intro c hc
        rw [← htake] at hc
        exact List.all_eq_true.mp hall3 c hc
      · omega


theorem matchAllGo_step_fail (r : Reg) (fuel : Nat) (prev : Option Char) (c : Char)
    (rest : List Char) (h : tryMatch r prev (c :: rest) = none) :
    matchAllGo r (fuel + 1) prev (c :: rest) = matchAllGo r fuel (some c) rest := by
  simp only [matchAllGo, h]

theorem matchAllGo_skip (r : Reg) :
    ∀ (pre : List Char) (prev : Option Char) (rest : List Char) (fuel : Nat),
    (∀ pre1 c pre2, pre = pre1 ++ c :: pre2 →
      tryMatch r (lastOpt pre1 prev) (c :: (pre2 ++ rest)) = none) →
    matchAllGo r (fuel + pre.length) prev (pre ++ rest) =
      matchAllGo r fuel (lastOpt pre prev) rest := by
  intro pre
  induction pre with
  | nil => intro prev rest fuel _; simp [lastOpt_nil]
  | cons c pre' ih =>
    intro prev rest fuel hfail
    have h0 : tryMatch r prev (c :: (pre' ++ rest)) = none := hfail [] c pre' rfl
    rw [List.cons_append]
    rw [show fuel + (c :: pre').length = (fuel + pre'.length) + 1 by
      simp [List.length_cons]; omega]
    rw [matchAllGo_step_fail r _ prev c (pre' ++ rest) h0]
    rw [ih (some c) rest fuel (fun p1 c2 p2 hp => by
      have hh := hfail (c :: p1) c2 p2 (by rw [hp, List.cons_append])
      rwa [lastOpt_cons] at hh)]
    rw [lastOpt_cons]

theorem clsAt_fail (K2 : Option Char → List Char → Option (Option Char × List Char))
    (pv : Option Char) (zs : List Char)
    (h : ∀ c, zs.head? = some c → (c == '@') = false) :
    matchR (.cls (· == '@')) pv zs K2 = none := by
  cases zs with
  | nil => rfl
  | cons c r =>
    simp only [matchR]
    rw [if_neg (by simp [h c rfl])]

theorem tryMatch_email_bound_fail (prev : Option Char) (c : Char) (rest : List Char)
    (h : isWordOpt prev = isWordOpt (some c)) :
    tryMatch emailReg prev (c :: rest) = none := by
  unfold tryMatch emailReg
  simp only [matchR]
  rw [if_neg (by simp [h])]

theorem tryMatch_email_colon_fail (prev : Option Char) (rest : List Char)
    (hw : isWordOpt prev = true) :
    tryMatch emailReg prev (':' :: rest) = none := by
  unfold tryMatch emailReg
  simp only [matchR]
  rw [if_pos (by simp only [List.head?_cons]; rw [hw]; decide)]
  rw [matchRep_cons, if_neg (by decide), if_neg (by decide)]

theorem tryMatch_email_contact_fail (sfx : List Char) :
    tryMatch emailReg none
      ('c' :: 'o' :: 'n' :: 't' :: 'a' :: 'c' :: 't' :: ':' :: ' ' :: sfx) = none := by
  unfold tryMatch emailReg
  simp only [matchR]
  rw [if_pos (by simp only [List.head?_cons, isWordOpt]; decide)]
  exact repRunFail ['c', 'o', 'n', 't', 'a', 'c', 't'] (':' :: ' ' :: sfx) 1 none
    (by decide) (fun c hc => by cases hc; decide)
    (fun pv n hn => by
      have hn7 : n ≤ 7 := by simpa using hn
      interval_cases n <;>
        exact clsAt_fail _ _ _ (fun c hc => by cases hc; decide))

theorem tryMatch_email_nil (pv : Option Char) : tryMatch emailReg pv [] = none := by
  unfold tryMatch emailReg
  simp only [matchR]
  split
  · rw [matchRep_nil, if_neg (by decide)]
  · rfl


theorem tryMatch_email_success (L P T : List Char)
    (hL : ∀ c ∈ L, isLocalChar c = true) (hLne : L ≠ [])
    (hw : isWordOpt (L ++ '@' :: (P ++ '.' :: T)).head? = true)
    (hP : ∀ c ∈ P, isDomainChar c = true) (hPne : P ≠ [])
    (hT : ∀ c ∈ T, isAsciiLetter c = true) (hTlen : 2 ≤ T.length) :
    tryMatch emailReg (some ' ') (L ++ '@' :: (P ++ '.' :: T)) =
      some (lastOpt T (some '.'), []) := by
  have hTne : T ≠ [] := by
    intro h0; rw [h0] at hTlen; simp at hTlen
  unfold tryMatch emailReg
  simp only [matchR]
  rw [if_pos (by rw [hw]; decide)]
  apply emailCore_fwd L P T (some ' ') hL hLne hP hPne hT hTlen
  have htl : T.getLast? = some (T.getLast hTne) :=
    List.getLast?_eq_getLast_of_ne_nil hTne
  have hmem : T.getLast hTne ∈ T := List.getLast_mem hTne
  have hlast : lastOpt T (some '.') = some (T.getLast hTne) := by
    unfold lastOpt
    rw [htl]
  rw [hlast]
  have hword : isWordChar (T.getLast hTne) = true := by
    have := hT _ hmem
    unfold isAsciiLetter at this
    unfold isWordChar
    simp [this]
  rw [if_pos (by simp only [List.head?_nil, hword, isWordOpt]; decide)]

theorem matchAllGo_email_end (pv : Option Char) (fuel : Nat) :
    matchAllGo emailReg fuel pv [] = [] := by
  cases fuel with
  | zero => rfl
  | succ f => simp only [matchAllGo, tryMatch_email_nil]

theorem matchAll_contact (L P T : List Char)
    (hL : ∀ c ∈ L, isLocalChar c = true) (hLne : L ≠ [])
    (hw : isWordOpt (L ++ '@' :: (P ++ '.' :: T)).head? = true)
    (hP : ∀ c ∈ P, isDomainChar c = true) (hPne : P ≠ [])
    (hT : ∀ c ∈ T, isAsciiLetter c = true) (hTlen : 2 ≤ T.length) :
    matchAll emailReg
        ('c' :: 'o' :: 'n' :: 't' :: 'a' :: 'c' :: 't' :: ':' :: ' ' ::
          (L ++ '@' :: (P ++ '.' :: T))) =
      [L ++ '@' :: (P ++ '.' :: T)] := by
  have hbf : ∀ (prev : Option Char) (c : Char) (rest : List Char),
      isWordOpt prev = isWordOpt (some c) → tryMatch emailReg prev (c :: rest) = none :=
    tryMatch_email_bound_fail
  unfold matchAll
  set e : List Char := L ++ '@' :: (P ++ '.' :: T) with he
  rw [show ('c' :: 'o' :: 'n' :: 't' :: 'a' :: 'c' :: 't' :: ':' :: ' ' :: e).length + 1
      = (e.length + 1) + (['c', 'o', 'n', 't', 'a', 'c', 't', ':', ' '] : List Char).length by
    simp]
  have hskip := matchAllGo_skip emailReg ['c', 'o', 'n', 't', 'a', 'c', 't', ':', ' ']
    none e (e.length + 1) ?hfails
  case hfails =>
    intro p1 c p2 hp
    rcases p1 with _ | ⟨a1, p1⟩
    · simp only [List.nil_append, List.cons.injEq] at hp
      obtain ⟨h1, h2⟩ := hp
      subst h1; subst h2
      exact tryMatch_email_contact_fail _
    rcases p1 with _ | ⟨a2, p1⟩
    · simp only [List.cons_append, List.nil_append, List.cons.injEq] at hp
      obtain ⟨e1, h1, h2⟩ := hp
      subst e1; subst h1; subst h2
      exact hbf _ _ _ (by decide)
    rcases p1 with _ | ⟨a3, p1⟩
    · simp only [List.cons_append, List.nil_append, List.cons.injEq] at hp
      obtain ⟨e1, e2, h1, h2⟩ := hp
      subst e1; subst e2; subst h1; subst h2
      exact hbf _ _ _ (by decide)
    rcases p1 with _ | ⟨a4, p1⟩
    · simp only [List.cons_append, List.nil_append, List.cons.injEq] at hp
      obtain ⟨e1, e2, e3, h1, h2⟩ := hp
      subst e1; subst e2; subst e3; subst h1; subst h2
      exact hbf _ _ _ (by decide)
    rcases p1 with _ | ⟨a5, p1⟩
    · simp only [List.cons_append, List.nil_append, List.cons.injEq] at hp
      obtain ⟨e1, e2, e3, e4, h1, h2⟩ := hp
      subst e1; subst e2; subst e3; subst e4; subst h1; subst h2
      exact hbf _ _ _ (by decide)
    rcases p1 with _ | ⟨a6, p1⟩
    · simp only [List.cons_append, List.nil_append, List.cons.injEq] at hp
      obtain ⟨e1, e2, e3, e4, e5, h1, h2⟩ := hp
      subst e1; subst e2; subst e3; subst e4; subst e5; subst h1; subst h2
      exact hbf _ _ _ (by decide)
    rcases p1 with _ | ⟨a7, p1⟩
    · simp only [List.cons_append, List.nil_append, List.cons.injEq] at hp
      obtain ⟨e1, e2, e3, e4, e5, e6, h1, h2⟩ := hp
      subst e1; subst e2; subst e3; subst e4; subst e5; subst e6; subst h1; subst h2
      exact hbf _ _ _ (by decide)
    rcases p1 with _ | ⟨a8, p1⟩
    · simp only [List.cons_append, List.nil_append, List.cons.injEq] at hp
      obtain ⟨e1, e2, e3, e4, e5, e6, e7, h1, h2⟩ := hp
      subst e1; subst e2; subst e3; subst e4; subst e5; subst e6; subst e7
      subst h1; subst h2
      exact tryMatch_email_colon_fail _ _ (by decide)
    rcases p1 with _ | ⟨a9, p1⟩
    · simp only [List.cons_append, List.nil_append, List.cons.injEq] at hp
      obtain ⟨e1, e2, e3, e4, e5, e6, e7, e8, h1, h2⟩ := hp
      subst e1; subst e2; subst e3; subst e4; subst e5; subst e6; subst e7; subst e8
      subst h1; subst h2
      exact hbf _ _ _ (by decide)
    · simp only [List.cons_append, List.cons.injEq] at hp
      obtain ⟨_, _, _, _, _, _, _, _, _, hbad⟩ := hp
      exact absurd hbad (by simp)
  rw [show ('c' :: 'o' :: 'n' :: 't' :: 'a' :: 'c' :: 't' :: ':' :: ' ' :: e)
      = ['c', 'o', 'n', 't', 'a', 'c', 't', ':', ' '] ++ e from rfl]
  rw [hskip]
  rw [show lastOpt ['c', 'o', 'n', 't', 'a', 'c', 't', ':', ' '] none = some ' ' from rfl]
  have hsucc := tryMatch_email_success L P T hL hLne hw hP hPne hT hTlen
  rw [← he] at hsucc
  simp only [matchAllGo, hsucc]
  have hepos : 0 < e.length := by
    rw [he]
    cases L with
    | nil => exact absurd rfl hLne
    | cons x xs => simp
  rw [if_pos (by simpa using hepos)]
  rw [matchAllGo_email_end]
  simp

/-- The characters `jsToLower` maps non-identically. -/
def upperTableChars : List Char :=
  ['A', 'B', 'C', 'D', 'E', 'F', 'G', 'H', 'I', 'J', 'K', 'L', 'M', 'N', 'O', 'P', 'Q', 'R', 'S', 'T', 'U', 'V', 'W', 'X', 'Y', 'Z', 'Á', 'À', 'Â', 'Ã', 'É', 'Ê', 'Í', 'Ó', 'Ô', 'Õ', 'Ú', 'Ç']

theorem jsToLower_fix {c : Char} (hc : c ∉ upperTableChars) : jsToLower c = c := by
  have h1 : ¬(c = 'A') := fun he => hc (by rw [he]; decide)
  have h2 : ¬(c = 'B') := fun he => hc (by rw [he]; decide)
  have h3 : ¬(c = 'C') := fun he => hc (by rw [he]; decide)
  have h4 : ¬(c = 'D') := fun he => hc (by rw [he]; decide)
  have h5 : ¬(c = 'E') := fun he => hc (by rw [he]; decide)
  have h6 : ¬(c = 'F') := fun he => hc (by rw [he]; decide)
  have h7 : ¬(c = 'G') := fun he => hc (by rw [he]; decide)
  have h8 : ¬(c = 'H') := fun he => hc (by rw [he]; decide)
  have h9 : ¬(c = 'I') := fun he => hc (by rw [he]; decide)
  have h10 : ¬(c = 'J') := fun he => hc (by rw [he]; decide)
  have h11 : ¬(c = 'K') := fun he => hc (by rw [he]; decide)
  have h12 : ¬(c = 'L') := fun he => hc (by rw [he]; decide)
  have h13 : ¬(c = 'M') := fun he => hc (by rw [he]; decide)
  have h14 : ¬(c = 'N') := fun he => hc (by rw [he]; decide)
  have h15 : ¬(c = 'O') := fun he => hc (by rw [he]; decide)
  have h16 : ¬(c = 'P') := fun he => hc (by rw [he]; decide)
  have h17 : ¬(c = 'Q') := fun he => hc (by rw [he]; decide)
  have h18 : ¬(c = 'R') := fun he => hc (by rw [he]; decide)
  have h19 : ¬(c = 'S') := fun he => hc (by rw [he]; decide)
  have h20 : ¬(c = 'T') := fun he => hc (by rw [he]; decide)
  have h21 : ¬(c = 'U') := fun he => hc (by rw [he]; decide)
  have h22 : ¬(c = 'V') := fun he => hc (by rw [he]; decide)
  have h23 : ¬(c = 'W') := fun he => hc (by rw [he]; decide)
  have h24 : ¬(c = 'X') := fun he => hc (by rw [he]; decide)
  have h25 : ¬(c = 'Y') := fun he => hc (by rw [he]; decide)
  have h26 : ¬(c = 'Z') := fun he => hc (by rw [he]; decide)
  have h27 : ¬(c = 'Á') := fun he => hc (by rw [he]; decide)
  have h28 : ¬(c = 'À') := fun he => hc (by rw [he]; decide)
  have h29 : ¬(c = 'Â') := fun he => hc (by rw [he]; decide)
  have h30 : ¬(c = 'Ã') := fun he => hc (by rw [he]; decide)
  have h31 : ¬(c = 'É') := fun he => hc (by rw [he]; decide)
  have h32 : ¬(c = 'Ê') := fun he => hc (by rw [he]; decide)
  have h33 : ¬(c = 'Í') := fun he => hc (by rw [he]; decide)
  have h34 : ¬(c = 'Ó') := fun he => hc (by rw [he]; decide)
  have h35 : ¬(c = 'Ô') := fun he => hc (by rw [he]; decide)
  have h36 : ¬(c = 'Õ') := fun he => hc (by rw [he]; decide)
  have h37 : ¬(c = 'Ú') := fun he => hc (by rw [he]; decide)
  have h38 : ¬(c = 'Ç') := fun he => hc (by rw [he]; decide)
  unfold jsToLower
  rw [if_neg h1, if_neg h2, if_neg h3, if_neg h4, if_neg h5, if_neg h6, if_neg h7, if_neg h8, if_neg h9, if_neg h10, if_neg h11, if_neg h12, if_neg h13, if_neg h14, if_neg h15, if_neg h16, if_neg h17, if_neg h18, if_neg h19, if_neg h20, if_neg h21, if_neg h22, if_neg h23, if_neg h24, if_neg h25, if_neg h26, if_neg h27, if_neg h28, if_neg h29, if_neg h30, if_neg h31, if_neg h32, if_neg h33, if_neg h34, if_neg h35, if_neg h36, if_neg h37, if_neg h38]

theorem jsToLower_local {c : Char} (h : isLocalChar c = true) :
    isLocalChar (jsToLower c) = true := by
  by_cases hc : c ∈ upperTableChars
  · simp only [upperTableChars, List.mem_cons, List.not_mem_nil, or_false] at hc
    rcases hc with (rfl|rfl|rfl|rfl|rfl|rfl|rfl|rfl|rfl|rfl|rfl|rfl|rfl|rfl|rfl|rfl|rfl|rfl|rfl|rfl|rfl|rfl|rfl|rfl|rfl|rfl|rfl|rfl|rfl|rfl|rfl|rfl|rfl|rfl|rfl|rfl|rfl|rfl) <;> revert h <;> decide
  · rw [jsToLower_fix hc]; exact h

theorem jsToLower_domain {c : Char} (h : isDomainChar c = true) :
    isDomainChar (jsToLower c) = true := by
  by_cases hc : c ∈ upperTableChars
  · simp only [upperTableChars, List.mem_cons, List.not_mem_nil, or_false] at hc
    rcases hc with (rfl|rfl|rfl|rfl|rfl|rfl|rfl|rfl|rfl|rfl|rfl|rfl|rfl|rfl|rfl|rfl|rfl|rfl|rfl|rfl|rfl|rfl|rfl|rfl|rfl|rfl|rfl|rfl|rfl|rfl|rfl|rfl|rfl|rfl|rfl|rfl|rfl|rfl) <;> revert h <;> decide
  · rw [jsToLower_fix hc]; exact h

theorem jsToLower_letter {c : Char} (h : isAsciiLetter c = true) :
    isAsciiLetter (jsToLower c) = true := by
  by_cases hc : c ∈ upperTableChars
  · simp only [upperTableChars, List.mem_cons, List.not_mem_nil, or_false] at hc
    rcases hc with (rfl|rfl|rfl|rfl|rfl|rfl|rfl|rfl|rfl|rfl|rfl|rfl|rfl|rfl|rfl|rfl|rfl|rfl|rfl|rfl|rfl|rfl|rfl|rfl|rfl|rfl|rfl|rfl|rfl|rfl|rfl|rfl|rfl|rfl|rfl|rfl|rfl|rfl) <;> revert h <;> decide
  · rw [jsToLower_fix hc]; exact h

theorem jsToLower_dot_iff (c : Char) : jsToLower c = '.' ↔ c = '.' := by
  by_cases hc : c ∈ upperTableChars
  · simp only [upperTableChars, List.mem_cons, List.not_mem_nil, or_false] at hc
    rcases hc with (rfl|rfl|rfl|rfl|rfl|rfl|rfl|rfl|rfl|rfl|rfl|rfl|rfl|rfl|rfl|rfl|rfl|rfl|rfl|rfl|rfl|rfl|rfl|rfl|rfl|rfl|rfl|rfl|rfl|rfl|rfl|rfl|rfl|rfl|rfl|rfl|rfl|rfl) <;> decide
  · rw [jsToLower_fix hc]

theorem jsToLower_at_iff (c : Char) : jsToLower c = '@' ↔ c = '@' := by
  by_cases hc : c ∈ upperTableChars
  · simp only [upperTableChars, List.mem_cons, List.not_mem_nil, or_false] at hc
    rcases hc with (rfl|rfl|rfl|rfl|rfl|rfl|rfl|rfl|rfl|rfl|rfl|rfl|rfl|rfl|rfl|rfl|rfl|rfl|rfl|rfl|rfl|rfl|rfl|rfl|rfl|rfl|rfl|rfl|rfl|rfl|rfl|rfl|rfl|rfl|rfl|rfl|rfl|rfl) <;> decide
  · rw [jsToLower_fix hc]

theorem jsToLower_dash_iff (c : Char) : jsToLower c = '-' ↔ c = '-' := by
  by_cases hc : c ∈ upperTableChars
  · simp only [upperTableChars, List.mem_cons, List.not_mem_nil, or_false] at hc
    rcases hc with (rfl|rfl|rfl|rfl|rfl|rfl|rfl|rfl|rfl|rfl|rfl|rfl|rfl|rfl|rfl|rfl|rfl|rfl|rfl|rfl|rfl|rfl|rfl|rfl|rfl|rfl|rfl|rfl|rfl|rfl|rfl|rfl|rfl|rfl|rfl|rfl|rfl|rfl) <;> decide
  · rw [jsToLower_fix hc]

theorem jsToLower_beq_dot (c : Char) : (jsToLower c == '.') = (c == '.') := by
  by_cases hc : c = '.'
  · subst hc; decide
  · have hn : jsToLower c ≠ '.' := fun hh => hc ((jsToLower_dot_iff c).mp hh)
    simp [hc, hn]

theorem jsToLower_beq_dash (c : Char) : (jsToLower c == '-') = (c == '-') := by
  by_cases hc : c = '-'
  · subst hc; decide
  · have hn : jsToLower c ≠ '-' := fun hh => hc ((jsToLower_dash_iff c).mp hh)
    simp [hc, hn]

theorem dot_beq_jsToLower (c : Char) : ('.' == jsToLower c) = ('.' == c) := by
  by_cases hc : c = '.'
  · subst hc; decide
  · have hn : jsToLower c ≠ '.' := fun hh => hc ((jsToLower_dot_iff c).mp hh)
    simp [Ne.symm hc, Ne.symm hn]

theorem jsSplitChar_ne_nil (sep : Char) (l : List Char) : jsSplitChar sep l ≠ [] := by
  induction l with
  | nil => simp [jsSplitChar]
  | cons c r ih =>
    simp only [jsSplitChar]
    split
    · simp
    · split
      · simp
      · simp

theorem jsSplitChar_map {sep : Char} (hsep : ∀ c, jsToLower c = sep ↔ c = sep) :
    ∀ l : List Char,
    jsSplitChar sep (l.map jsToLower) = (jsSplitChar sep l).map (List.map jsToLower) := by
  intro l
  induction l with
  | nil => rfl
  | cons c rest ih =>
    simp only [List.map_cons, jsSplitChar]
    by_cases hc : c = sep
    · rw [if_pos (by simp [(hsep c).mpr hc]), if_pos (by simp [hc]), ih]
      simp
    · have h1 : ¬((jsToLower c == sep) = true) := by
        simp only [beq_iff_eq]
        exact fun hh => hc ((hsep c).mp hh)
      rw [if_neg h1, if_neg (by simp [hc]), ih]
      cases hsp : jsSplitChar sep rest with
      | nil => exact absurd hsp (jsSplitChar_ne_nil sep rest)
      | cons h0 t0 => simp

theorem hasConsecDots_map : ∀ l : List Char,
    hasConsecDots (l.map jsToLower) = hasConsecDots l := by
  intro l
  induction l with
  | nil => rfl
  | cons c rest ih =>
    cases rest with
    | nil => rfl
    | cons d r =>
      simp only [List.map_cons, hasConsecDots]
      rw [jsToLower_beq_dot c, jsToLower_beq_dot d]
      have ih' : hasConsecDots (List.map jsToLower (d :: r)) = hasConsecDots (d :: r) := ih
      simp only [List.map_cons] at ih'
      rw [ih']

theorem contains_dot_map : ∀ l : List Char,
    (l.map jsToLower).contains '.' = l.contains '.' := by
  intro l
  induction l with
  | nil => rfl
  | cons c r ih =>
    simp only [List.map_cons, List.contains_cons, ih, dot_beq_jsToLower]

theorem headq_map_beq (l : List Char) (t : Char)
    (hbeq : ∀ c, (jsToLower c == t) = (c == t)) :
    ((l.map jsToLower).head? == some t) = (l.head? == some t) := by
  cases l with
  | nil => rfl
  | cons c r =>
    simp only [List.map_cons, List.head?_cons]
    by_cases hc : c = t
    · subst hc
      have h1 : jsToLower c = c := by
        have := hbeq c
        simp at this
        exact this
      rw [h1]
    · have h2 : jsToLower c ≠ t := by
        have := hbeq c
        simp [hc] at this
        exact this
      simp [hc, h2]

theorem lastq_map_beq (l : List Char) (t : Char)
    (hbeq : ∀ c, (jsToLower c == t) = (c == t)) :
    ((l.map jsToLower).getLast? == some t) = (l.getLast? == some t) := by
  rw [List.getLast?_map]
  cases hl : l.getLast? with
  | none => rfl
  | some c =>
    simp only [Option.map_some']
    by_cases hc : c = t
    · subst hc
      have h1 : jsToLower c = c := by
        have := hbeq c
        simp at this
        exact this
      rw [h1]
    · have h2 : jsToLower c ≠ t := by
        have := hbeq c
        simp [hc] at this
        exact this
      simp [hc, h2]

theorem validateEmail_toLower {e : String} (h : validateEmail e = true) :
    validateEmail (jsToLowerStr e) = true := by
  unfold validateEmail at h
  split at h
  case isTrue => exact absurd h (by simp)
  case isFalse hreg0 =>
    have hreg : regexFullMatch emailCoreReg e.data = true := by
      revert hreg0
      cases regexFullMatch emailCoreReg e.data <;> simp
    dsimp only at h
    split at h
    case isTrue => exact absurd h (by simp)
    case isFalse hlen0 =>
      have hlen2 : (jsSplitChar '@' e.data).length = 2 := by
        revert hlen0
        cases hq : ((jsSplitChar '@' e.data).length != 2) <;> simp_all
      obtain ⟨lp, dp, hparts⟩ := List.length_eq_two.mp hlen2
      rw [hparts] at h
      simp only [List.headD_cons, List.drop_one, List.tail_cons] at h
      split at h
      case isTrue => exact absurd h (by simp)
      case isFalse c1 =>
      split at h
      case isTrue => exact absurd h (by simp)
      case isFalse c2 =>
      split at h
      case isTrue => exact absurd h (by simp)
      case isFalse c3 =>
      split at h
      case isTrue => exact absurd h (by simp)
      case isFalse c4 =>
      split at h
      case isTrue => exact absurd h (by simp)
      case isFalse c5 =>
      split at h
      case isTrue => exact absurd h (by simp)
      case isFalse c6 =>
      split at h
      case isTrue => exact absurd h (by simp)
      case isFalse c7 =>
      obtain ⟨L, P, T, hsplit, hLne, hLcls, hPne, hPcls, hTcls, hTlen⟩ := emailCore_inv hreg
      have hdata : (jsToLowerStr e).data = e.data.map jsToLower := rfl
      have hregL : regexFullMatch emailCoreReg ((jsToLowerStr e).data) = true := by
        rw [hdata, hsplit]
        simp only [List.map_append, List.map_cons]
        rw [show jsToLower '@' = '@' from by decide, show jsToLower '.' = '.' from by decide]
        unfold regexFullMatch
        rw [emailCore_fwd (L.map jsToLower) (P.map jsToLower) (T.map jsToLower) none
          (fun c hc => by
            obtain ⟨c0, hc0, rfl⟩ := List.mem_map.mp hc
            exact jsToLower_local (hLcls c0 hc0))
          (by simpa using hLne)
          (fun c hc => by
            obtain ⟨c0, hc0, rfl⟩ := List.mem_map.mp hc
            exact jsToLower_domain (hPcls c0 hc0))
          (by simpa using hPne)
          (fun c hc => by
            obtain ⟨c0, hc0, rfl⟩ := List.mem_map.mp hc
            exact jsToLower_letter (hTcls c0 hc0))
          (by simpa using hTlen)
          rfl]
        rfl
      unfold validateEmail
      rw [if_neg (by simp [hregL])]
      dsimp only
      rw [hdata, jsSplitChar_map jsToLower_at_iff e.data, hparts]
      simp only [List.map_cons, List.map_nil, List.headD_cons, List.drop_one,
        List.tail_cons, List.length_map]
      rw [if_neg c1]
      rw [show ((List.map jsToLower lp).head? == some '.') = (lp.head? == some '.') from
          headq_map_beq lp '.' jsToLower_beq_dot,
        show ((List.map jsToLower lp).getLast? == some '.') = (lp.getLast? == some '.') from
          lastq_map_beq lp '.' jsToLower_beq_dot]
      rw [if_neg c2]
      rw [hasConsecDots_map lp]
      rw [if_neg c3]
      rw [if_neg c4]
      rw [show ((List.map jsToLower dp).head? == some '.') = (dp.head? == some '.') from
          headq_map_beq dp '.' jsToLower_beq_dot,
        show ((List.map jsToLower dp).getLast? == some '.') = (dp.getLast? == some '.') from
          lastq_map_beq dp '.' jsToLower_beq_dot,
        show ((List.map jsToLower dp).head? == some '-') = (dp.head? == some '-') from
          headq_map_beq dp '-' jsToLower_beq_dash,
        show ((List.map jsToLower dp).getLast? == some '-') = (dp.getLast? == some '-') from
          lastq_map_beq dp '-' jsToLower_beq_dash]
      rw [if_neg c5]
      rw [contains_dot_map dp]
      rw [if_neg c6]
      rw [jsSplitChar_map jsToLower_dot_iff dp]
      rw [List.all_map]
      have hcheck : ((fun part => part.length != 0 && decide (part.length ≤ 63) &&
            part.head? != some '-' && part.getLast? != some '-') ∘ List.map jsToLower)
          = (fun part => part.length != 0 && decide (part.length ≤ 63) &&
            part.head? != some '-' && part.getLast? != some '-') := by
        funext part
        simp only [Function.comp_apply, List.length_map]
        have hh : ((List.map jsToLower part).head? != some '-') = (part.head? != some '-') := by
          show (!((List.map jsToLower part).head? == some '-')) = (!(part.head? == some '-'))
          rw [headq_map_beq part '-' jsToLower_beq_dash]
        have hl : ((List.map jsToLower part).getLast? != some '-')
            = (part.getLast? != some '-') := by
          show (!((List.map jsToLower part).getLast? == some '-'))
            = (!(part.getLast? == some '-'))
          rw [lastq_map_beq part '-' jsToLower_beq_dash]
        rw [hh, hl]
      rw [hcheck]
      rw [if_neg c7]
      have htld : (((jsSplitChar '.' dp).map (List.map jsToLower)).getLastD []).length
          = ((jsSplitChar '.' dp).getLastD []).length := by
        rw [List.getLastD_eq_getLast?, List.getLastD_eq_getLast?, List.getLast?_map]
        cases hgl : (jsSplitChar '.' dp).getLast? with
        | none => rfl
        | some t => simp
      rw [htld]
      exact h

/-- C9 (amended): for every email `e` accepted by `validateEmail` whose first
character is a word character (ASCII letter, digit or underscore),
`extractEmails ("contact: " ++ e)` contains `e.toLowerCase()`.  (The word
boundary `\b` in `EMAIL_PATTERN` makes the first-character restriction
necessary.) -/
theorem C9_amended (e : String)
    (hv : validateEmail e = true)
    (hw : isWordOpt e.data.head? = true) :
    jsToLowerStr e ∈ extractEmails ("contact: " ++ e) := by
  have hreg : regexFullMatch emailCoreReg e.data = true := by
    unfold validateEmail at hv
    split at hv
    case isTrue => exact absurd hv (by simp)
    case isFalse hreg0 =>
      revert hreg0
      cases regexFullMatch emailCoreReg e.data <;> simp
  obtain ⟨L, P, T, hsplit, hLne, hLcls, hPne, hPcls, hTcls, hTlen⟩ := emailCore_inv hreg
  have hd : ("contact: " ++ e).data
      = 'c' :: 'o' :: 'n' :: 't' :: 'a' :: 'c' :: 't' :: ':' :: ' ' :: e.data := by
    rw [String.data_append]
    rfl
  have hma : matchAll emailReg ("contact: " ++ e).data = [e.data] := by
    rw [hd, hsplit]
    exact matchAll_contact L P T hLcls hLne (by rw [← hsplit]; exact hw) hPcls hPne
      hTcls hTlen
  have hne : (("contact: " ++ e) == "") = false := by
    rw [beq_eq_false_iff_ne]
    intro hh
    have hdat : ("contact: " ++ e).data = [] := by rw [hh]
    rw [String.data_append] at hdat
    rcases List.append_eq_nil.mp hdat with ⟨h1, _⟩
    exact absurd h1 (by decide)
  unfold extractEmails
  rw [if_neg (by simp [hne])]
  rw [hma]
  simp only [List.foldl_cons, List.foldl_nil]
  have he2 : (⟨e.data⟩ : String) = e := rfl
  rw [he2]
  have hvL := validateEmail_toLower hv
  rw [if_pos (by simp [hvL])]
  simp

/-- C9: the claim fails as stated: `"%a@b.cd"` passes `validateEmail`, but
`\b` cannot match between the space and `%`, so the scan finds only
`"a@b.cd"` and the full lowercased email is not in the output. -/
theorem C9_counterexample :
    validateEmail "%a@b.cd" = true ∧
      jsToLowerStr "%a@b.cd" ∉ extractEmails ("contact: " ++ "%a@b.cd") := by
  decide

theorem C9_amended_witness :
    jsToLowerStr "a@b.co" ∈ extractEmails ("contact: " ++ "a@b.co") :=
  C9_amended "a@b.co" (by decide) (by decide)

end WebScrapy
